import Mathlib

/-!
# Grapnel: `lib/library.go`

A shallow embedding of the `Library` type of `grapnel/lib/library.go`, of its
constructor `NewLibrary` and of its methods `Install`, `Destroy`,
`AddDependencies` and `ToToml`, followed by theorems about them.

Conventions of the embedding:

* a Go `string` is a Lean `String`; a Go pointer that may be `nil` is an `Option`;
  a Go slice is a `List` (a slice that may be `nil` and is tested against `nil`
  is an `Option (List _)`);
* a Go `error` result is an `Option GoError` (`none` is `nil`), a Go
  `(value, error)` result is an `Except GoError value`;
* an `io.Writer` is the sequence of writes it has received, oldest first; the
  text it holds is their concatenation, and the lines of a text are what its
  newlines end;
* functions called by `library.go` but defined elsewhere (the operating system,
  the Go standard library, other files of package `lib`) are fields of an
  environment record that every theorem quantifies over.
-/

namespace Grapnel

/-! ## Data model -/

/-- A Go `error` value, identified with the message `Error()` returns. -/
structure GoError where
  msg : String
deriving DecidableEq, Repr

/-- The `net/url` type `URL`, identified with the text its method `String()`
renders: `ToToml` observes nothing else of it. -/
structure URL where
  rendered : String
deriving DecidableEq, Repr

/-- The method `(*url.URL).String`. -/
def URL.String (u : URL) : String := u.rendered

/-- Modelled from the spec: the type `Version` is declared outside `library.go`;
the spec gives it the integer fields `Major`, `Minor` and `Patch`. -/
structure Version where
  Major : Int
  Minor : Int
  Patch : Int
deriving DecidableEq, Repr

/-- Modelled from the spec: the text `%v` prints for a `*Version`, which is
declared outside `library.go`; the spec gives `1.2.0` for `{1,2,0}`, the three
fields in decimal separated by dots. -/
def Version.String (v : Version) : String :=
  toString v.Major ++ "." ++ toString v.Minor ++ "." ++ toString v.Patch

/-- The type `Dependency`, declared outside `library.go`: the fields that
`library.go` reads. `Type_` is the Go field `Type` (a reserved word here); `Url`
is a `*url.URL`. -/
structure Dependency where
  Type_ : String
  Import : String
  Url : Option URL
  Branch : String
  Tag : String
deriving DecidableEq, Repr

/-- The struct `Library`: it embeds `Dependency`; `Version` is a `*Version`. -/
structure Library extends Dependency where
  Version : Option Version
  TempDir : String
  Provides : List String
  Dependencies : List Dependency
deriving DecidableEq, Repr

/-- The constructor `NewLibrary`: empty `Provides` and `Dependencies`, the
dependency copied, the other fields at their zero values. -/
def NewLibrary (dep : Dependency) : Library :=
  { toDependency := dep
    Version := none
    TempDir := ""
    Provides := []
    Dependencies := [] }

/-! ## The environment of `library.go` -/

/-- A call that leaves `library.go` for the file system, in the order the calls
are made. -/
inductive Call where
  | MkdirAll (path : String) (perm : Nat)
  | CopyFileTree (dst src : String)
  | Remove (name : String)
  | LoadGrapnelDepsfile (searchFiles : List String)
  | GetDirectories (dir : String)
  | ImportDir (dir : String) (mode : Nat)
deriving DecidableEq, Repr

/-- The functions `library.go` calls and does not define, over a type `W` of
file-system states. `filepathJoin` is `filepath.Join`, `pathJoin` is `path.Join`,
`MkdirAll` is `os.MkdirAll`, `Remove` is `os.Remove`, `ImportDir` is
`build.ImportDir` followed by reading the field `Imports` of the package;
`CopyFileTree`, `LoadGrapnelDepsfile`, `GetDirectories`, `IsStandardDependency`
and `NewDependency` belong to other files of package `lib`. The calls that write
return the state they leave; the calls that read leave it as it is.
`LoadGrapnelDepsfile` yields `none` for a nil slice. -/
structure Env (W : Type) where
  filepathJoin : String → String → String
  pathJoin : String → String → String
  MkdirAll : String → Nat → W → Option GoError × W
  CopyFileTree : String → String → W → Option GoError × W
  Remove : String → W → Option GoError × W
  LoadGrapnelDepsfile : List String → W → Except GoError (Option (List Dependency))
  GetDirectories : String → W → Except GoError (List String)
  ImportDir : String → Nat → W → Except GoError (List String)
  IsStandardDependency : String → Bool
  NewDependency : String → String → String → Except GoError Dependency

/-- What a method that writes to the file system leaves: the error it returns,
the file-system state, and the calls it made. -/
structure SysResult (W : Type) where
  err : Option GoError
  world : W
  calls : List Call

/-- What `AddDependencies` leaves: the error it returns, the receiver as
mutated, and the calls it made. -/
structure AddResult where
  err : Option GoError
  self : Library
  calls : List Call
deriving DecidableEq, Repr

/-! ## `Install` and `Destroy` -/

/-- The method `Library.Install`. The calls to package `log` only print and are
left out. -/
def Install {W : Type} (env : Env W) (self : Library) (installRoot : String) (w : W) :
    SysResult W :=
  let importPath := env.filepathJoin installRoot self.Import
  match env.MkdirAll importPath 0o755 w with
  | (some _, w1) =>
    { err := some ⟨"Could not create target directory: '" ++ importPath ++ "'"⟩
      world := w1
      calls := [Call.MkdirAll importPath 0o755] }
  | (none, w1) =>
    match env.CopyFileTree importPath self.TempDir w1 with
    | (some _, w2) =>
      { err := some ⟨"Error while walking dependency file tree"⟩
        world := w2
        calls := [Call.MkdirAll importPath 0o755, Call.CopyFileTree importPath self.TempDir] }
    | (none, w2) =>
      { err := none
        world := w2
        calls := [Call.MkdirAll importPath 0o755, Call.CopyFileTree importPath self.TempDir] }

/-- The method `Library.Destroy`. -/
def Destroy {W : Type} (env : Env W) (self : Library) (w : W) : SysResult W :=
  let r := env.Remove self.TempDir w
  { err := r.1, world := r.2, calls := [Call.Remove self.TempDir] }

/-! ## `AddDependencies` -/

/-- The loop of lines 94-96: every path of `importPaths`, qualified by the import
path of the library, is appended to `Provides`. -/
def qualifyPaths (self : Library) (importPaths : List String) : Library :=
  importPaths.foldl
    (fun lib path => { lib with Provides := lib.Provides ++ [lib.Import ++ "/" ++ path] }) self

/-- The loop of lines 108-119 over `pkg.Imports`: a standard import is skipped,
any other becomes a dependency appended to `Dependencies`; the first failure of
`NewDependency` is returned at once. -/
def addImports {W : Type} (env : Env W) :
    List String → Library → Option GoError × Library
  | [], self => (none, self)
  | importName :: rest, self =>
    if env.IsStandardDependency importName then
      addImports env rest self
    else
      match env.NewDependency importName "" "" with
      | .error err => (some err, self)
      | .ok dep => addImports env rest { self with Dependencies := self.Dependencies ++ [dep] }

/-- The method `Library.AddDependencies`. The calls to package `log` only print
and are left out. -/
def AddDependencies {W : Type} (env : Env W) (self : Library) (w : W) : AddResult :=
  if self.TempDir = "" then
    { err := none, self := self, calls := [] }
  else
    let searchFiles :=
      [env.pathJoin self.TempDir "grapnel-lock.toml", env.pathJoin self.TempDir "grapnel.toml"]
    match env.LoadGrapnelDepsfile searchFiles w with
    | .error err =>
      { err := some err, self := self, calls := [Call.LoadGrapnelDepsfile searchFiles] }
    | .ok (some deplist) =>
      { err := none
        self := { self with Dependencies := self.Dependencies ++ deplist }
        calls := [Call.LoadGrapnelDepsfile searchFiles] }
    | .ok none =>
      match env.GetDirectories self.TempDir w with
      | .error err =>
        { err := some err
          self := self
          calls := [Call.LoadGrapnelDepsfile searchFiles, Call.GetDirectories self.TempDir] }
      | .ok importPaths =>
        let self := qualifyPaths self importPaths
        let calls := [Call.LoadGrapnelDepsfile searchFiles, Call.GetDirectories self.TempDir,
          Call.ImportDir self.TempDir 0]
        match env.ImportDir self.TempDir 0 w with
        | .error _ => { err := none, self := self, calls := calls }
        | .ok imports =>
          let r := addImports env imports self
          { err := r.1, self := r.2, calls := calls }

/-! ## `ToToml` -/

/-- One `fmt.Fprintf(writer, ...)` call: the formatted text is written to the
writer, after everything written before. -/
def Fprintf (writer : List String) (text : String) : List String :=
  writer ++ [text]

/-- The method `Library.ToToml`: the state of the writer after the call, or
`none` when the call panics on a nil `Version` (line 125, after the header has
been written). -/
def ToToml (self : Library) (writer : List String) : Option (List String) :=
  let writer := Fprintf writer "\n[[dependencies]]\n"
  match self.Version with
  | none => none
  | some version =>
    let writer :=
      if version.Major > 0 then
        Fprintf writer ("version = \"" ++ version.String ++ "\"\n")
      else
        Fprintf writer "# Unversioned\n"
    let writer :=
      if self.Type_ ≠ "" then Fprintf writer ("type = \"" ++ self.Type_ ++ "\"\n") else writer
    let writer :=
      if self.Import ≠ "" then Fprintf writer ("import = \"" ++ self.Import ++ "\"\n")
      else writer
    let writer :=
      match self.Url with
      | some url => Fprintf writer ("url = \"" ++ url.String ++ "\"\n")
      | none => writer
    let writer :=
      if self.Branch ≠ "" then Fprintf writer ("branch = \"" ++ self.Branch ++ "\"\n")
      else writer
    let writer :=
      if self.Tag ≠ "" then Fprintf writer ("tag = \"" ++ self.Tag ++ "\"\n") else writer
    some writer

/-- The text a writer holds: its writes, concatenated. -/
def writtenText (writer : List String) : String :=
  String.join writer

/-- The header line of a dependency record, as `ToToml` writes it. -/
def headerLine : String := "\n[[dependencies]]\n"

/-- The comment line that stands for an absent `version` key. -/
def unversionedLine : String := "# Unversioned\n"

/-- The line `key = "value"` of the persisted format. -/
def keyLine (key value : String) : String :=
  key ++ " = \"" ++ value ++ "\"\n"

/-- Whether a line is a line for `key`: it starts with `key = "`. -/
def hasKey (key line : String) : Bool :=
  (key ++ " = \"").data.isPrefixOf line.data

/-- The place of a line in the field order of a record: 0 for `version` or its
comment placeholder, then `type`, `import`, `url`, `branch`, `tag`; 6 for any
other line. -/
def lineRank (line : String) : Nat :=
  if hasKey "version" line || line == unversionedLine then 0
  else if hasKey "type" line then 1
  else if hasKey "import" line then 2
  else if hasKey "url" line then 3
  else if hasKey "branch" line then 4
  else if hasKey "tag" line then 5
  else 6

/-! ## Reading a record back

The reader of the persisted format is the vendored TOML library, of which only the
lexer tests are at hand (`lexer_test.go`). The definitions of this section stand
for it, for the part of the format a dependency record uses: comments, one
`[[dependencies]]` header, and `key = "basic string"` pairs. -/

/-- Modelled from the spec: the reader of the persisted format is not at hand;
this is where it stands in the text. `void` is between items, `open1` after a
first `[`, `close1` after a first `]`, `str` inside a quoted value, `escape`
after a backslash, `hex` inside a `\u` or `\U` escape with `left` digits to
come, `afterValue` after a header or a value, up to the end of the line. -/
inductive ReadMode where
  | void
  | comment
  | open1
  | tableName (name : List Char)
  | close1 (name : List Char)
  | key (name : List Char)
  | afterKey (name : List Char)
  | afterEqual (name : List Char)
  | str (name value : List Char)
  | escape (name value : List Char)
  | hex (name value : List Char) (left code : Nat)
  | afterValue
deriving DecidableEq, Repr

/-- Modelled from the spec: the state of the reader of the persisted format,
which is not at hand: where it stands, the table headers and the key/value pairs
read so far. -/
structure ReadState where
  mode : ReadMode
  tables : List String
  pairs : List (String × String)
deriving DecidableEq, Repr

/-- Modelled from the spec: the blanks the reader of the persisted format skips
within a line. -/
def isBlank (c : Char) : Bool := c == ' ' || c == '\t' || c == '\r'

/-- Modelled from the spec: the value of a hexadecimal digit in a unicode escape
of the persisted format (`TestKeyEqualStringUnicodeEscape`). -/
def hexValue (c : Char) : Option Nat :=
  if '0' ≤ c ∧ c ≤ '9' then some (c.toNat - '0'.toNat)
  else if 'a' ≤ c ∧ c ≤ 'f' then some (c.toNat - 'a'.toNat + 10)
  else if 'A' ≤ c ∧ c ≤ 'F' then some (c.toNat - 'A'.toNat + 10)
  else none

/-- Modelled from the spec: the character a one-letter escape of a quoted value
stands for (`TestKeyEqualStringEscape`); any other letter is an invalid escape
sequence (`TestInvalidEsquapeSequence`). -/
def unescape (c : Char) : Option Char :=
  if c = '"' then some '"'
  else if c = '\\' then some '\\'
  else if c = '/' then some '/'
  else if c = 'n' then some '\n'
  else if c = 't' then some '\t'
  else if c = 'r' then some '\r'
  else if c = 'b' then some (Char.ofNat 8)
  else if c = 'f' then some (Char.ofNat 12)
  else none

/-- Modelled from the spec: one step of the reader of the persisted format, which
is not at hand, on the next character; `none` is a lexer error. A comment runs to
the end of its line (`TestComment`), a key ends at a blank or `=` and holds no `#`
(`TestKeyWithSharpAndEqual`), a quoted value ends at the next unescaped double
quote, and a raw newline inside it is an error: a quoted value of a record is on
one line. -/
def readChar (st : ReadState) (c : Char) : Option ReadState :=
  match st.mode with
  | .void =>
    if isBlank c || c == '\n' then some st
    else if c = '#' then some { st with mode := .comment }
    else if c = '[' then some { st with mode := .open1 }
    else if c = '=' then none
    else some { st with mode := .key [c] }
  | .comment =>
    if c = '\n' then some { st with mode := .void } else some st
  | .open1 =>
    if c = '[' then some { st with mode := .tableName [] } else none
  | .tableName name =>
    if c = ']' then some { st with mode := .close1 name }
    else if c = '\n' then none
    else some { st with mode := .tableName (name ++ [c]) }
  | .close1 name =>
    if c = ']' then some { st with mode := .afterValue, tables := st.tables ++ [String.mk name] }
    else none
  | .key name =>
    if isBlank c then some { st with mode := .afterKey name }
    else if c = '=' then some { st with mode := .afterEqual name }
    else if c = '#' || c = '\n' then none
    else some { st with mode := .key (name ++ [c]) }
  | .afterKey name =>
    if isBlank c then some st
    else if c = '=' then some { st with mode := .afterEqual name }
    else none
  | .afterEqual name =>
    if isBlank c then some st
    else if c = '"' then some { st with mode := .str name [] }
    else none
  | .str name value =>
    if c = '"' then
      some { st with mode := .afterValue, pairs := st.pairs ++ [(String.mk name, String.mk value)] }
    else if c = '\\' then some { st with mode := .escape name value }
    else if c = '\n' then none
    else some { st with mode := .str name (value ++ [c]) }
  | .escape name value =>
    if c = 'u' then some { st with mode := .hex name value 4 0 }
    else if c = 'U' then some { st with mode := .hex name value 8 0 }
    else
      match unescape c with
      | some d => some { st with mode := .str name (value ++ [d]) }
      | none => none
  | .hex name value left code =>
    match hexValue c with
    | none => none
    | some d =>
      if left ≤ 1 then some { st with mode := .str name (value ++ [Char.ofNat (code * 16 + d)]) }
      else some { st with mode := .hex name value (left - 1) (code * 16 + d) }
  | .afterValue =>
    if isBlank c then some st
    else if c = '\n' then some { st with mode := .void }
    else if c = '#' then some { st with mode := .comment }
    else none

/-- Modelled from the spec: the reader of the persisted format run over a text. -/
def readChars : ReadState → List Char → Option ReadState
  | st, [] => some st
  | st, c :: cs =>
    match readChar st c with
    | none => none
    | some st1 => readChars st1 cs

/-- Modelled from the spec: reading a text as one record of the persisted format:
the key/value pairs of a text that holds exactly one `[[dependencies]]` header, no
key twice, and ends outside a value (`TestKeyEqualStringUnfinished`). -/
def readPairs (text : String) : Option (List (String × String)) :=
  match readChars { mode := .void, tables := [], pairs := [] } text.data with
  | none => none
  | some st =>
    if (st.mode = .void ∨ st.mode = .comment ∨ st.mode = .afterValue) ∧
        st.tables = ["dependencies"] ∧ (st.pairs.map Prod.fst).Nodup then
      some st.pairs
    else none

/-- Modelled from the spec: the `Dependency` a record of the persisted format
declares: an absent key leaves the field at its zero value, a `url` key sets the
URL that renders as its value. -/
def readDependency (text : String) : Option Dependency :=
  (readPairs text).map fun pairs =>
    { Type_ := (pairs.lookup "type").getD ""
      Import := (pairs.lookup "import").getD ""
      Url := (pairs.lookup "url").map URL.mk
      Branch := (pairs.lookup "branch").getD ""
      Tag := (pairs.lookup "tag").getD "" }

/-- A text without double quote, backslash or newline. -/
def plainText (s : String) : Bool :=
  s.data.all (fun c => c != '"' && c != '\\' && c != '\n')

/-- The lines `ToToml` writes for a string field: `key = "value"` unless the
value is empty. -/
def optLine (key value : String) : List String :=
  if value ≠ "" then [keyLine key value] else []

/-- The lines `ToToml` writes for the `Url` field: `url = "..."` unless the
pointer is nil. -/
def urlLines (url : Option URL) : List String :=
  match url with
  | some u => [keyLine "url" u.String]
  | none => []

/-- The lines `ToToml` writes for the fields of the embedded `Dependency`. -/
def fieldLines (dep : Dependency) : List String :=
  optLine "type" dep.Type_ ++ (optLine "import" dep.Import ++ (urlLines dep.Url ++
    (optLine "branch" dep.Branch ++ optLine "tag" dep.Tag)))

/-- The line `ToToml` writes for the version: the pin, or the placeholder. -/
def versionLine (version : Version) : String :=
  if version.Major > 0 then keyLine "version" version.String else unversionedLine

/-! ## Auxiliary definitions and examples -/

/-- A library whose `Url` is set but renders as the empty string. -/
def emptyUrlLibrary : Library :=
  { Type_ := "", Import := "", Url := some ⟨""⟩, Branch := "", Tag := ""
    Version := some ⟨0, 3, 0⟩, TempDir := "", Provides := [], Dependencies := [] }

/-- A file-system state for the examples: what a staged tree holds. -/
structure StagedTree where
  declared : Except GoError (Option (List Dependency))
  dirs : Except GoError (List String)
  imports : Except GoError (List String)
  installed : List (String × String)

/-- An environment for the examples, over `StagedTree`: reads return what the tree
holds, `fmt` and `os` are the standard imports, `MkdirAll` fails on the empty
path, `CopyFileTree` records the copy; `Remove` is not used with it. -/
def treeEnv : Env StagedTree where
  filepathJoin := fun a b => a ++ "/" ++ b
  pathJoin := fun a b => a ++ "/" ++ b
  MkdirAll := fun path _ t => if path = "/" then (some ⟨"mkdir"⟩, t) else (none, t)
  CopyFileTree := fun dst src t => (none, { t with installed := t.installed ++ [(dst, src)] })
  Remove := fun _ t => (none, t)
  LoadGrapnelDepsfile := fun _ t => t.declared
  GetDirectories := fun _ t => t.dirs
  ImportDir := fun _ _ t => t.imports
  IsStandardDependency := fun i => i == "fmt" || i == "os"
  NewDependency := fun i _ _ =>
    .ok { Type_ := "", Import := i, Url := none, Branch := "", Tag := "" }

/-- A dependency for the examples. -/
def widgets : Dependency :=
  { Type_ := "git", Import := "acme/widgets", Url := none, Branch := "", Tag := "" }

/-- A dependency for the examples. -/
def gears : Dependency :=
  { Type_ := "", Import := "acme/gears", Url := none, Branch := "", Tag := "" }

/-- A staged tree with a lockfile that declares `gears`. -/
def lockedTree : StagedTree :=
  { declared := .ok (some [gears]), dirs := .ok ["sub"], imports := .ok ["fmt", "acme/other"]
    installed := [] }

/-- A staged tree without manifest or lockfile. -/
def bareTree : StagedTree :=
  { declared := .ok none, dirs := .ok ["sub", "cmd"], imports := .ok ["fmt", "acme/gears", "os"]
    installed := [] }

/-- A staged tree whose lockfile is malformed. -/
def brokenTree : StagedTree :=
  { declared := .error ⟨"bad toml"⟩, dirs := .ok ["sub"], imports := .ok ["acme/gears"]
    installed := [] }

/-- A staged tree without manifest or lockfile that holds no Go package. -/
def noGoTree : StagedTree :=
  { declared := .ok none, dirs := .ok ["sub"], imports := .error ⟨"no Go files"⟩
    installed := [] }

/-- The library `NewLibrary` returns, after the fetch has set its staging
directory and version. -/
def stagedLibrary (dep : Dependency) (tempDir : String) (version : Option Version) : Library :=
  { NewLibrary dep with TempDir := tempDir, Version := version }

/-- The characters a key of a record is made of, for the reader: no blank, no
`=`, `#`, `[` and no newline. -/
def keyChars (name : List Char) : Bool :=
  name.all (fun c => !isBlank c && c != '=' && c != '#' && c != '[' && c != '\n')

/-- The fields of a dependency hold no double quote, backslash or newline. -/
def plainFields (dep : Dependency) : Prop :=
  plainText dep.Type_ = true ∧ plainText dep.Import = true ∧
  (∀ u, dep.Url = some u → plainText u.String = true) ∧
  plainText dep.Branch = true ∧ plainText dep.Tag = true

/-- The key/value pairs of the record `ToToml` writes. -/
def writtenPairs (version : Version) (dep : Dependency) : List (String × String) :=
  (if version.Major > 0 then [("version", version.String)] else []) ++
  (if dep.Type_ ≠ "" then [("type", dep.Type_)] else []) ++
  (if dep.Import ≠ "" then [("import", dep.Import)] else []) ++
  (dep.Url.map (fun u => ("url", u.String))).toList ++
  (if dep.Branch ≠ "" then [("branch", dep.Branch)] else []) ++
  (if dep.Tag ≠ "" then [("tag", dep.Tag)] else [])

/-- A library pinned at version 1.2.0. -/
def pinnedLibrary : Library :=
  { Type_ := "git", Import := "acme/widgets", Url := some ⟨"http://acme.test/widgets"⟩
    Branch := "", Tag := "v1.2.0", Version := some ⟨1, 2, 0⟩, TempDir := "/tmp/widgets"
    Provides := [], Dependencies := [] }

/-- A library resolved at the unstable version 0.3.0. -/
def unstableLibrary : Library :=
  { Type_ := "", Import := "acme/gears", Url := none, Branch := "master", Tag := ""
    Version := some ⟨0, 3, 0⟩, TempDir := "/tmp/gears", Provides := [], Dependencies := [] }

/-- A library whose type holds a double quote and a newline. -/
def quotedLibrary : Library :=
  { Type_ := "a\"\nimport = \"b", Import := "", Url := none, Branch := "", Tag := ""
    Version := some ⟨0, 3, 0⟩, TempDir := "", Provides := [], Dependencies := [] }

/-- A library with the type and import that the text of `quotedLibrary` shows. -/
def splitLibrary : Library :=
  { Type_ := "a", Import := "b", Url := none, Branch := "", Tag := ""
    Version := some ⟨0, 3, 0⟩, TempDir := "", Provides := [], Dependencies := [] }

/-! ## A file system for `Destroy` -/

/-- A file system reduced to the paths that exist on it. -/
structure Disk where
  paths : List String
deriving DecidableEq, Repr

/-- Whether a path exists on the disk. -/
def Disk.has (d : Disk) (name : String) : Bool :=
  d.paths.contains name

/-- Whether a path of the disk lies below the directory `name`. -/
def Disk.hasBelow (d : Disk) (name : String) : Bool :=
  d.paths.any (fun p => (name ++ "/").data.isPrefixOf p.data)

/-- The function `os.Remove` of the Go standard library on a `Disk`, after its
documentation: it removes the named file or empty directory; on a path that does
not exist, or on a directory that is not empty, it returns a `*PathError` and
removes nothing. -/
def osRemove (name : String) (d : Disk) : Option GoError × Disk :=
  if d.has name = false then
    (some ⟨"remove " ++ name ++ ": no such file or directory"⟩, d)
  else if d.hasBelow name then
    (some ⟨"remove " ++ name ++ ": directory not empty"⟩, d)
  else
    (none, { paths := d.paths.filter (fun p => p != name) })

/-- An environment over `Disk` whose `Remove` is `osRemove`: `MkdirAll` adds the
path, `CopyFileTree` adds the destination, the staged trees hold neither manifest
nor lockfile, no subdirectory and no import. -/
def diskEnv : Env Disk where
  filepathJoin := fun a b => a ++ "/" ++ b
  pathJoin := fun a b => a ++ "/" ++ b
  MkdirAll := fun path _ d => (none, { paths := d.paths ++ [path] })
  CopyFileTree := fun dst _ d => (none, { paths := d.paths ++ [dst] })
  Remove := osRemove
  LoadGrapnelDepsfile := fun _ _ => .ok none
  GetDirectories := fun _ _ => .ok []
  ImportDir := fun _ _ _ => .ok []
  IsStandardDependency := fun _ => false
  NewDependency := fun i _ _ =>
    .ok { Type_ := "", Import := i, Url := none, Branch := "", Tag := "" }

/-- What the documentation of `os.Remove` promises, for an environment and a test
`present` of whether a path exists: a removal that returns no error leaves the
path absent, and the removal of an absent path returns an error and leaves the
file system as it is. -/
def RemovesLikeOS {W : Type} (env : Env W) (present : String → W → Bool) : Prop :=
  (∀ name w, (env.Remove name w).1 = none → present name (env.Remove name w).2 = false) ∧
  (∀ name w, present name w = false →
    (env.Remove name w).1 ≠ none ∧ (env.Remove name w).2 = w)

/-- A disk that holds one empty staging directory. -/
def stagedDisk : Disk :=
  { paths := ["/tmp/widgets"] }

/-- What the loop of `addImports` appends to `Dependencies`, and the error it
returns: neither depends on the library it runs on. -/
def importDeps {W : Type} (env : Env W) : List String → Option GoError × List Dependency
  | [] => (none, [])
  | importName :: rest =>
    if env.IsStandardDependency importName then
      importDeps env rest
    else
      match env.NewDependency importName "" "" with
      | .error err => (some err, [])
      | .ok dep => ((importDeps env rest).1, dep :: (importDeps env rest).2)

/-! ## The lines of a text -/

/-- The lines of a text, each with the newline that ends it; what follows the last
newline, if anything, is a last line. -/
def splitLines : List Char → List (List Char)
  | [] => []
  | c :: cs =>
    if c = '\n' then [c] :: splitLines cs
    else
      match splitLines cs with
      | [] => [[c]]
      | line :: lines => (c :: line) :: lines

/-- The lines of a text, as strings. -/
def textLines (text : String) : List String :=
  (splitLines text.data).map String.mk

/-- A text that is one line: it ends with a newline and holds no other. -/
def endsLine (text : String) : Prop :=
  ∃ line : List Char, text.data = line ++ ['\n'] ∧ ∀ c ∈ line, c ≠ '\n'

/-- A library whose tag holds a double quote and a newline, followed by what reads
as a second `type` line. -/
def repeatedTypeLibrary : Library :=
  { Type_ := "git", Import := "", Url := none, Branch := "", Tag := "t\"\ntype = \"z"
    Version := some ⟨0, 3, 0⟩, TempDir := "", Provides := [], Dependencies := [] }

/-- A library at version 0.3.0 whose type holds a double quote and a newline,
followed by what reads as a `version` line. -/
def forgedPinLibrary : Library :=
  { Type_ := "git\"\nversion = \"6.6.6", Import := "", Url := none, Branch := "", Tag := ""
    Version := some ⟨0, 3, 0⟩, TempDir := "", Provides := [], Dependencies := [] }

/-- A library at version 1.2.0 whose tag holds a double quote and newlines around
the text of the comment placeholder. -/
def forgedPlaceholderLibrary : Library :=
  { Type_ := "", Import := "", Url := none, Branch := ""
    Tag := "v\"\n# Unversioned\nbranch = \"b"
    Version := some ⟨1, 2, 0⟩, TempDir := "", Provides := [], Dependencies := [] }

/-- A library with an empty type whose import path holds a double quote and a
newline, followed by what reads as a `type` line. -/
def forgedTypeLibrary : Library :=
  { Type_ := "", Import := "x\"\ntype = \"y", Url := none, Branch := "", Tag := ""
    Version := some ⟨0, 3, 0⟩, TempDir := "", Provides := [], Dependencies := [] }

/-- A staged tree without manifest or lockfile whose subdirectories cannot be
listed, and whose Go package imports `acme/gears`. -/
def noDirsTree : StagedTree :=
  { declared := .ok none, dirs := .error ⟨"no dirs"⟩, imports := .ok ["acme/gears"]
    installed := [] }

end Grapnel

open Grapnel

/-! ## The shape of the text `ToToml` writes -/

theorem ToToml_eq (self : Library) (version : Version) (writer : List String)
    (hv : self.Version = some version) :
    ToToml self writer = some (writer ++ headerLine :: versionLine version ::
      fieldLines self.toDependency) := by
  have hk : ∀ k v : String, k ++ v ++ "\"\n" = k ++ (v ++ "\"\n") := fun k v =>
    String.append_assoc k v _
  simp only [ToToml, hv, Fprintf, headerLine, versionLine, fieldLines, optLine, urlLines,
    keyLine, unversionedLine]
  by_cases h0 : version.Major > 0 <;> by_cases h1 : self.Type_ = "" <;>
    by_cases h2 : self.Import = "" <;> by_cases h4 : self.Branch = "" <;>
    by_cases h5 : self.Tag = "" <;> cases h3 : self.Url <;>
    simp [h0, h1, h2, h4, h5, String.append_assoc]

theorem lineRank_version (v : String) : lineRank (keyLine "version" v) = 0 := by
  simp [lineRank, keyLine, hasKey, String.data_append, List.isPrefixOf_cons₂]

theorem lineRank_unversioned : lineRank unversionedLine = 0 := by decide

theorem lineRank_type (v : String) : lineRank (keyLine "type" v) = 1 := by
  simp [lineRank, keyLine, hasKey, String.data_append, List.isPrefixOf_cons₂, unversionedLine,
    String.ext_iff]

theorem lineRank_import (v : String) : lineRank (keyLine "import" v) = 2 := by
  simp [lineRank, keyLine, hasKey, String.data_append, List.isPrefixOf_cons₂, unversionedLine,
    String.ext_iff]

theorem lineRank_url (v : String) : lineRank (keyLine "url" v) = 3 := by
  simp [lineRank, keyLine, hasKey, String.data_append, List.isPrefixOf_cons₂, unversionedLine,
    String.ext_iff]

theorem lineRank_branch (v : String) : lineRank (keyLine "branch" v) = 4 := by
  simp [lineRank, keyLine, hasKey, String.data_append, List.isPrefixOf_cons₂, unversionedLine,
    String.ext_iff]

theorem lineRank_tag (v : String) : lineRank (keyLine "tag" v) = 5 := by
  simp [lineRank, keyLine, hasKey, String.data_append, List.isPrefixOf_cons₂, unversionedLine,
    String.ext_iff]

theorem lineRank_versionLine (version : Version) : lineRank (versionLine version) = 0 := by
  unfold versionLine
  split_ifs
  · exact lineRank_version _
  · exact lineRank_unversioned

/-- The writes of `ToToml`, in order: the header, the version line or the
placeholder, then at most one line per key in the order type, import, url, branch,
tag. -/
theorem ToToml_record_order (self : Library) (version : Version) (writer : List String)
    (hv : self.Version = some version) :
    ∃ rest, ToToml self writer = some (writer ++ headerLine :: rest) ∧
      (rest.head?.map lineRank = some 0) ∧
      (rest.map lineRank).Pairwise (· < ·) ∧
      ∀ line ∈ rest, lineRank line ≤ 5 := by
  refine ⟨_, ToToml_eq self version writer hv, ?_, ?_, ?_⟩
  · simp [lineRank_versionLine]
  · simp only [fieldLines, optLine, urlLines]
    by_cases h1 : self.Type_ = "" <;>
    by_cases h2 : self.Import = "" <;> by_cases h4 : self.Branch = "" <;>
    by_cases h5 : self.Tag = "" <;> cases h3 : self.Url <;>
    simp [h1, h2, h4, h5, lineRank_versionLine, lineRank_type,
      lineRank_import, lineRank_url, lineRank_branch, lineRank_tag]
  · simp only [fieldLines, optLine, urlLines]
    by_cases h1 : self.Type_ = "" <;>
    by_cases h2 : self.Import = "" <;> by_cases h4 : self.Branch = "" <;>
    by_cases h5 : self.Tag = "" <;> cases h3 : self.Url <;>
    simp [h1, h2, h4, h5, lineRank_versionLine, lineRank_type,
      lineRank_import, lineRank_url, lineRank_branch, lineRank_tag]

theorem lineRank_pos_iff (line : String) :
    lineRank line ≠ 0 ↔ (hasKey "version" line = false ∧ line ≠ unversionedLine) := by
  unfold lineRank
  by_cases h : hasKey "version" line = true
  · simp [h]
  · by_cases h2 : line = unversionedLine
    · simp [h2]
    · simp only [Bool.not_eq_true] at h
      simp only [h, beq_iff_eq, h2, Bool.false_or, decide_False, ne_eq, not_false_eq_true,
        and_self, iff_true]
      split_ifs <;> simp_all

theorem lineRank_fields_pos (dep : Dependency) (line : String)
    (h : line ∈ fieldLines dep) :
    lineRank line ≠ 0 := by
  simp only [fieldLines, optLine, urlLines, List.mem_append] at h
  rcases h with h | h | h | h | h
  · split_ifs at h <;> simp_all [lineRank_type]
  · split_ifs at h <;> simp_all [lineRank_import]
  · split at h <;> simp_all [lineRank_url]
  · split_ifs at h <;> simp_all [lineRank_branch]
  · split_ifs at h <;> simp_all [lineRank_tag]

theorem mem_fieldLines (dep : Dependency) (line : String) :
    line ∈ fieldLines dep ↔
      (dep.Type_ ≠ "" ∧ line = keyLine "type" dep.Type_) ∨
      (dep.Import ≠ "" ∧ line = keyLine "import" dep.Import) ∨
      (∃ u, dep.Url = some u ∧ line = keyLine "url" u.String) ∨
      (dep.Branch ≠ "" ∧ line = keyLine "branch" dep.Branch) ∨
      (dep.Tag ≠ "" ∧ line = keyLine "tag" dep.Tag) := by
  simp only [fieldLines, optLine, urlLines, List.mem_append]
  by_cases h1 : dep.Type_ = "" <;> by_cases h2 : dep.Import = "" <;>
    by_cases h4 : dep.Branch = "" <;> by_cases h5 : dep.Tag = "" <;> cases h3 : dep.Url <;>
    simp [h1, h2, h4, h5]

theorem hasKey_type (v : String) :
    hasKey "type" headerLine = false ∧ hasKey "type" unversionedLine = false ∧
    hasKey "type" (keyLine "version" v) = false ∧ hasKey "type" (keyLine "type" v) = true ∧
    hasKey "type" (keyLine "import" v) = false ∧ hasKey "type" (keyLine "url" v) = false ∧
    hasKey "type" (keyLine "branch" v) = false ∧ hasKey "type" (keyLine "tag" v) = false := by
  simp [hasKey, keyLine, headerLine, unversionedLine, String.data_append, List.isPrefixOf_cons₂]

theorem hasKey_import (v : String) :
    hasKey "import" headerLine = false ∧ hasKey "import" unversionedLine = false ∧
    hasKey "import" (keyLine "version" v) = false ∧ hasKey "import" (keyLine "type" v) = false ∧
    hasKey "import" (keyLine "import" v) = true ∧ hasKey "import" (keyLine "url" v) = false ∧
    hasKey "import" (keyLine "branch" v) = false ∧ hasKey "import" (keyLine "tag" v) = false := by
  simp [hasKey, keyLine, headerLine, unversionedLine, String.data_append, List.isPrefixOf_cons₂]

theorem hasKey_url (v : String) :
    hasKey "url" headerLine = false ∧ hasKey "url" unversionedLine = false ∧
    hasKey "url" (keyLine "version" v) = false ∧ hasKey "url" (keyLine "type" v) = false ∧
    hasKey "url" (keyLine "import" v) = false ∧ hasKey "url" (keyLine "url" v) = true ∧
    hasKey "url" (keyLine "branch" v) = false ∧ hasKey "url" (keyLine "tag" v) = false := by
  simp [hasKey, keyLine, headerLine, unversionedLine, String.data_append, List.isPrefixOf_cons₂]

theorem hasKey_branch (v : String) :
    hasKey "branch" headerLine = false ∧ hasKey "branch" unversionedLine = false ∧
    hasKey "branch" (keyLine "version" v) = false ∧ hasKey "branch" (keyLine "type" v) = false ∧
    hasKey "branch" (keyLine "import" v) = false ∧ hasKey "branch" (keyLine "url" v) = false ∧
    hasKey "branch" (keyLine "branch" v) = true ∧ hasKey "branch" (keyLine "tag" v) = false := by
  simp [hasKey, keyLine, headerLine, unversionedLine, String.data_append, List.isPrefixOf_cons₂]

theorem hasKey_tag (v : String) :
    hasKey "tag" headerLine = false ∧ hasKey "tag" unversionedLine = false ∧
    hasKey "tag" (keyLine "version" v) = false ∧ hasKey "tag" (keyLine "type" v) = false ∧
    hasKey "tag" (keyLine "import" v) = false ∧ hasKey "tag" (keyLine "url" v) = false ∧
    hasKey "tag" (keyLine "branch" v) = false ∧ hasKey "tag" (keyLine "tag" v) = true := by
  simp [hasKey, keyLine, headerLine, unversionedLine, String.data_append, List.isPrefixOf_cons₂]

theorem hasKey_versionLine (version : Version) :
    hasKey "type" (versionLine version) = false ∧ hasKey "import" (versionLine version) = false ∧
    hasKey "url" (versionLine version) = false ∧ hasKey "branch" (versionLine version) = false ∧
    hasKey "tag" (versionLine version) = false := by
  unfold versionLine
  split_ifs
  · exact ⟨(hasKey_type _).2.2.1, (hasKey_import _).2.2.1, (hasKey_url _).2.2.1,
      (hasKey_branch _).2.2.1, (hasKey_tag _).2.2.1⟩
  · exact ⟨(hasKey_type "").2.1, (hasKey_import "").2.1, (hasKey_url "").2.1,
      (hasKey_branch "").2.1, (hasKey_tag "").2.1⟩

theorem fieldLines_hasKey (dep : Dependency) (line : String) (h : line ∈ fieldLines dep) :
    (hasKey "type" line = true ↔ (dep.Type_ ≠ "" ∧ line = keyLine "type" dep.Type_)) ∧
    (hasKey "import" line = true ↔ (dep.Import ≠ "" ∧ line = keyLine "import" dep.Import)) ∧
    (hasKey "url" line = true ↔ ∃ u, dep.Url = some u ∧ line = keyLine "url" u.String) ∧
    (hasKey "branch" line = true ↔ (dep.Branch ≠ "" ∧ line = keyLine "branch" dep.Branch)) ∧
    (hasKey "tag" line = true ↔ (dep.Tag ≠ "" ∧ line = keyLine "tag" dep.Tag)) := by
  have hT := hasKey_type
  have hI := hasKey_import
  have hU := hasKey_url
  have hB := hasKey_branch
  have hG := hasKey_tag
  have fwd : ∀ k l : String, hasKey k line = true → line = l → hasKey k l = true := by
    rintro k l hk rfl
    exact hk
  refine ⟨⟨fun hk => ?_, ?_⟩, ⟨fun hk => ?_, ?_⟩, ⟨fun hk => ?_, ?_⟩, ⟨fun hk => ?_, ?_⟩,
    ⟨fun hk => ?_, ?_⟩⟩
  · have f := fun l => fwd _ l hk
    rcases (mem_fieldLines dep line).1 h with ⟨h1, h2⟩ | ⟨h1, h2⟩ | ⟨u, h1, h2⟩ | ⟨h1, h2⟩ |
      ⟨h1, h2⟩
    · exact ⟨h1, h2⟩
    · exact absurd (f _ h2) (by simp [hT])
    · exact absurd (f _ h2) (by simp [hT])
    · exact absurd (f _ h2) (by simp [hT])
    · exact absurd (f _ h2) (by simp [hT])
  · rintro ⟨_, rfl⟩; exact (hT _).2.2.2.1
  · have f := fun l => fwd _ l hk
    rcases (mem_fieldLines dep line).1 h with ⟨h1, h2⟩ | ⟨h1, h2⟩ | ⟨u, h1, h2⟩ | ⟨h1, h2⟩ |
      ⟨h1, h2⟩
    · exact absurd (f _ h2) (by simp [hI])
    · exact ⟨h1, h2⟩
    · exact absurd (f _ h2) (by simp [hI])
    · exact absurd (f _ h2) (by simp [hI])
    · exact absurd (f _ h2) (by simp [hI])
  · rintro ⟨_, rfl⟩; exact (hI _).2.2.2.2.1
  · have f := fun l => fwd _ l hk
    rcases (mem_fieldLines dep line).1 h with ⟨h1, h2⟩ | ⟨h1, h2⟩ | ⟨u, h1, h2⟩ | ⟨h1, h2⟩ |
      ⟨h1, h2⟩
    · exact absurd (f _ h2) (by simp [hU])
    · exact absurd (f _ h2) (by simp [hU])
    · exact ⟨u, h1, h2⟩
    · exact absurd (f _ h2) (by simp [hU])
    · exact absurd (f _ h2) (by simp [hU])
  · rintro ⟨u, _, rfl⟩; exact (hU _).2.2.2.2.2.1
  · have f := fun l => fwd _ l hk
    rcases (mem_fieldLines dep line).1 h with ⟨h1, h2⟩ | ⟨h1, h2⟩ | ⟨u, h1, h2⟩ | ⟨h1, h2⟩ |
      ⟨h1, h2⟩
    · exact absurd (f _ h2) (by simp [hB])
    · exact absurd (f _ h2) (by simp [hB])
    · exact absurd (f _ h2) (by simp [hB])
    · exact ⟨h1, h2⟩
    · exact absurd (f _ h2) (by simp [hB])
  · rintro ⟨_, rfl⟩; exact (hB _).2.2.2.2.2.2.1
  · have f := fun l => fwd _ l hk
    rcases (mem_fieldLines dep line).1 h with ⟨h1, h2⟩ | ⟨h1, h2⟩ | ⟨u, h1, h2⟩ | ⟨h1, h2⟩ |
      ⟨h1, h2⟩
    · exact absurd (f _ h2) (by simp [hG])
    · exact absurd (f _ h2) (by simp [hG])
    · exact absurd (f _ h2) (by simp [hG])
    · exact absurd (f _ h2) (by simp [hG])
    · exact ⟨h1, h2⟩
  · rintro ⟨_, rfl⟩; exact (hG _).2.2.2.2.2.2.2

/-- The omission policy on a list of lines that ends with the version line and
the field lines of a dependency, after lines that are for none of the five keys
of the fields. -/
theorem omission_of_lines (dep : Dependency) (version : Version) (before : List String)
    (hpre : ∀ line ∈ before, hasKey "type" line = false ∧ hasKey "import" line = false ∧
      hasKey "url" line = false ∧ hasKey "branch" line = false ∧ hasKey "tag" line = false) :
    ((∃ line ∈ before ++ versionLine version :: fieldLines dep, hasKey "type" line = true) ↔
      dep.Type_ ≠ "") ∧
    ((∃ line ∈ before ++ versionLine version :: fieldLines dep, hasKey "import" line = true) ↔
      dep.Import ≠ "") ∧
    ((∃ line ∈ before ++ versionLine version :: fieldLines dep, hasKey "url" line = true) ↔
      dep.Url ≠ none) ∧
    ((∃ line ∈ before ++ versionLine version :: fieldLines dep, hasKey "branch" line = true) ↔
      dep.Branch ≠ "") ∧
    ((∃ line ∈ before ++ versionLine version :: fieldLines dep, hasKey "tag" line = true) ↔
      dep.Tag ≠ "") ∧
    (∀ line ∈ before ++ versionLine version :: fieldLines dep, hasKey "type" line = true →
      line = keyLine "type" dep.Type_) ∧
    (∀ line ∈ before ++ versionLine version :: fieldLines dep, hasKey "import" line = true →
      line = keyLine "import" dep.Import) ∧
    (∀ line ∈ before ++ versionLine version :: fieldLines dep, hasKey "url" line = true →
      ∃ u, dep.Url = some u ∧ line = keyLine "url" u.String) ∧
    (∀ line ∈ before ++ versionLine version :: fieldLines dep, hasKey "branch" line = true →
      line = keyLine "branch" dep.Branch) ∧
    (∀ line ∈ before ++ versionLine version :: fieldLines dep, hasKey "tag" line = true →
      line = keyLine "tag" dep.Tag) := by
  have hV := hasKey_versionLine version
  have hT := hasKey_type
  have hI := hasKey_import
  have hU := hasKey_url
  have hB := hasKey_branch
  have hG := hasKey_tag
  have key : ∀ k : String, (∀ line ∈ before, hasKey k line = false) →
      hasKey k (versionLine version) = false →
      ∀ line, (line ∈ before ++ versionLine version :: fieldLines dep ∧
        hasKey k line = true) ↔ (line ∈ fieldLines dep ∧ hasKey k line = true) := by
    intro k h1 h2 line
    simp only [List.mem_append, List.mem_cons]
    constructor
    · rintro ⟨h | rfl | h, hk⟩
      · simp [h1 line h] at hk
      · simp [h2] at hk
      · exact ⟨h, hk⟩
    · rintro ⟨h, hk⟩
      exact ⟨Or.inr (Or.inr h), hk⟩
  have hm := mem_fieldLines dep
  have hf := fieldLines_hasKey dep
  refine ⟨?_, ?_, ?_, ?_, ?_, ?_, ?_, ?_, ?_, ?_⟩
  · constructor
    · rintro ⟨line, hl, hk⟩
      have h := (key "type" (fun l hl => (hpre l hl).1) hV.1 line).1 ⟨hl, hk⟩
      exact (((hf line h.1).1).1 h.2).1
    · intro h
      exact ⟨keyLine "type" dep.Type_, by simp [hm, h], (hT _).2.2.2.1⟩
  · constructor
    · rintro ⟨line, hl, hk⟩
      have h := (key "import" (fun l hl => (hpre l hl).2.1) hV.2.1 line).1 ⟨hl, hk⟩
      exact (((hf line h.1).2.1).1 h.2).1
    · intro h
      exact ⟨keyLine "import" dep.Import, by simp [hm, h], (hI _).2.2.2.2.1⟩
  · constructor
    · rintro ⟨line, hl, hk⟩
      have h := (key "url" (fun l hl => (hpre l hl).2.2.1) hV.2.2.1 line).1 ⟨hl, hk⟩
      obtain ⟨u, hu, _⟩ := ((hf line h.1).2.2.1).1 h.2
      simp [hu]
    · intro h
      obtain ⟨u, hu⟩ := Option.ne_none_iff_exists'.1 h
      exact ⟨keyLine "url" u.String, by simp [hm, hu], (hU _).2.2.2.2.2.1⟩
  · constructor
    · rintro ⟨line, hl, hk⟩
      have h := (key "branch" (fun l hl => (hpre l hl).2.2.2.1) hV.2.2.2.1 line).1 ⟨hl, hk⟩
      exact (((hf line h.1).2.2.2.1).1 h.2).1
    · intro h
      exact ⟨keyLine "branch" dep.Branch, by simp [hm, h], (hB _).2.2.2.2.2.2.1⟩
  · constructor
    · rintro ⟨line, hl, hk⟩
      have h := (key "tag" (fun l hl => (hpre l hl).2.2.2.2) hV.2.2.2.2 line).1 ⟨hl, hk⟩
      exact (((hf line h.1).2.2.2.2).1 h.2).1
    · intro h
      exact ⟨keyLine "tag" dep.Tag, by simp [hm, h], (hG _).2.2.2.2.2.2.2⟩
  · intro line hl hk
    have h := (key "type" (fun l hl => (hpre l hl).1) hV.1 line).1 ⟨hl, hk⟩
    exact (((hf line h.1).1).1 h.2).2
  · intro line hl hk
    have h := (key "import" (fun l hl => (hpre l hl).2.1) hV.2.1 line).1 ⟨hl, hk⟩
    exact (((hf line h.1).2.1).1 h.2).2
  · intro line hl hk
    have h := (key "url" (fun l hl => (hpre l hl).2.2.1) hV.2.2.1 line).1 ⟨hl, hk⟩
    exact ((hf line h.1).2.2.1).1 h.2
  · intro line hl hk
    have h := (key "branch" (fun l hl => (hpre l hl).2.2.2.1) hV.2.2.2.1 line).1 ⟨hl, hk⟩
    exact (((hf line h.1).2.2.2.1).1 h.2).2
  · intro line hl hk
    have h := (key "tag" (fun l hl => (hpre l hl).2.2.2.2) hV.2.2.2.2 line).1 ⟨hl, hk⟩
    exact (((hf line h.1).2.2.2.2).1 h.2).2

/-! ## `AddDependencies` -/

theorem qualifyPaths_eq (importPaths : List String) (self : Library) :
    qualifyPaths self importPaths =
      { self with
        Provides := self.Provides ++ importPaths.map (fun path => self.Import ++ "/" ++ path) } := by
  unfold qualifyPaths
  induction importPaths generalizing self with
  | nil => simp
  | cons p ps ih =>
    simp only [List.foldl_cons, List.map_cons]
    rw [ih]
    simp

theorem addImports_ok {W : Type} (env : Env W) (imports : List String) (self : Library)
    (hN : ∀ i ∈ imports, env.IsStandardDependency i = false →
      ∃ d, env.NewDependency i "" "" = .ok d) :
    ∃ ds, addImports env imports self =
        (none, { self with Dependencies := self.Dependencies ++ ds }) ∧
      ds.map Except.ok =
        (imports.filter (fun i => !env.IsStandardDependency i)).map
          (fun i => env.NewDependency i "" "") := by
  induction imports generalizing self with
  | nil => exact ⟨[], by simp [addImports], by simp⟩
  | cons i rest ih =>
    have hrest : ∀ j ∈ rest, env.IsStandardDependency j = false →
        ∃ d, env.NewDependency j "" "" = .ok d :=
      fun j hj => hN j (List.mem_cons_of_mem _ hj)
    by_cases hs : env.IsStandardDependency i = true
    · obtain ⟨ds, h1, h2⟩ := ih self hrest
      exact ⟨ds, by simp [addImports, hs, h1], by simp [hs, h2]⟩
    · simp only [Bool.not_eq_true] at hs
      obtain ⟨d, hd⟩ := hN i (List.mem_cons_self _ _) hs
      obtain ⟨ds, h1, h2⟩ := ih { self with Dependencies := self.Dependencies ++ [d] } hrest
      refine ⟨d :: ds, ?_, ?_⟩
      · simp [addImports, hs, hd, h1]
      · simp [hs, hd, h2]

theorem addImports_provides {W : Type} (env : Env W) (imports : List String) (self : Library) :
    (addImports env imports self).2.Provides = self.Provides ∧
    (addImports env imports self).2.toDependency = self.toDependency := by
  induction imports generalizing self with
  | nil => simp [addImports]
  | cons i rest ih =>
    unfold addImports
    split_ifs
    · exact ih self
    · split
      · simp
      · have := ih { self with Dependencies := self.Dependencies ++ [‹Dependency›] }
        simpa using this

/-- C5. Declared dependencies take precedence over inference. For a library
fresh from `NewLibrary` with a non-empty `TempDir`, when `LoadGrapnelDepsfile`
on the lockfile and manifest paths returns a list, `AddDependencies` returns no
error, `Dependencies` is that list, `Provides` stays empty, only the loader has
been called, and any other environment and file-system state on which the
loader returns the same list leaves the same library. -/
theorem AddDependencies_declared {W : Type} (env : Env W) (dep : Dependency) (tempDir : String)
    (version : Option Version) (w : W) (deplist : List Dependency) (hT : tempDir ≠ "")
    (hL : env.LoadGrapnelDepsfile
      [env.pathJoin tempDir "grapnel-lock.toml", env.pathJoin tempDir "grapnel.toml"] w =
        .ok (some deplist)) :
    (AddDependencies env (stagedLibrary dep tempDir version) w).err = none ∧
    (AddDependencies env (stagedLibrary dep tempDir version) w).self.Dependencies = deplist ∧
    (AddDependencies env (stagedLibrary dep tempDir version) w).self.Provides = [] ∧
    (AddDependencies env (stagedLibrary dep tempDir version) w).calls =
      [Call.LoadGrapnelDepsfile
        [env.pathJoin tempDir "grapnel-lock.toml", env.pathJoin tempDir "grapnel.toml"]] ∧
    ∀ (V : Type) (env2 : Env V) (w2 : V),
      env2.LoadGrapnelDepsfile
        [env2.pathJoin tempDir "grapnel-lock.toml", env2.pathJoin tempDir "grapnel.toml"] w2 =
          .ok (some deplist) →
      (AddDependencies env2 (stagedLibrary dep tempDir version) w2).err = none ∧
      (AddDependencies env2 (stagedLibrary dep tempDir version) w2).self =
        (AddDependencies env (stagedLibrary dep tempDir version) w).self := by
  have key : ∀ (V : Type) (env2 : Env V) (w2 : V),
      env2.LoadGrapnelDepsfile
        [env2.pathJoin tempDir "grapnel-lock.toml", env2.pathJoin tempDir "grapnel.toml"] w2 =
          .ok (some deplist) →
      AddDependencies env2 (stagedLibrary dep tempDir version) w2 =
        { err := none
          self := { stagedLibrary dep tempDir version with Dependencies := deplist }
          calls := [Call.LoadGrapnelDepsfile
            [env2.pathJoin tempDir "grapnel-lock.toml", env2.pathJoin tempDir "grapnel.toml"]] } := by
    intro V env2 w2 h
    simp [AddDependencies, stagedLibrary, NewLibrary, hT, h]
  rw [key W env w hL]
  refine ⟨rfl, rfl, rfl, rfl, ?_⟩
  intro V env2 w2 h
  rw [key V env2 w2 h]
  exact ⟨rfl, rfl⟩

/-- C6. Provided packages by structural inference. For a library fresh from
`NewLibrary` with a non-empty `TempDir`, when the loader finds neither manifest
nor lockfile and `GetDirectories` returns `dirs`, `Provides` is `Import/d` for
each `d` of `dirs`, in order, whatever the import scan does. -/
theorem AddDependencies_provides {W : Type} (env : Env W) (dep : Dependency) (tempDir : String)
    (version : Option Version) (w : W) (dirs : List String) (hT : tempDir ≠ "")
    (hL : env.LoadGrapnelDepsfile
      [env.pathJoin tempDir "grapnel-lock.toml", env.pathJoin tempDir "grapnel.toml"] w =
        .ok none)
    (hD : env.GetDirectories tempDir w = .ok dirs) :
    (AddDependencies env (stagedLibrary dep tempDir version) w).self.Provides =
      dirs.map (fun d => dep.Import ++ "/" ++ d) := by
  simp only [AddDependencies, stagedLibrary, NewLibrary, hT, hL, hD, if_false, qualifyPaths_eq]
  split
  · simp
  · simp [addImports_provides]

/-- C7, amended. Inferred dependencies exclude the standard library. For a library
fresh from `NewLibrary` with a non-empty `TempDir`, when the loader finds neither
manifest nor lockfile, `GetDirectories` succeeds, the import scan returns
`imports` and `NewDependency` succeeds on each import that is not standard,
`AddDependencies` returns no error and `Dependencies` is `NewDependency(i, "", "")`
for the imports `i` that are not standard, in the order of `imports`; every
dependency comes from an import that is not standard. -/
theorem AddDependencies_inferred {W : Type} (env : Env W) (dep : Dependency) (tempDir : String)
    (version : Option Version) (w : W) (dirs imports : List String) (hT : tempDir ≠ "")
    (hL : env.LoadGrapnelDepsfile
      [env.pathJoin tempDir "grapnel-lock.toml", env.pathJoin tempDir "grapnel.toml"] w =
        .ok none)
    (hD : env.GetDirectories tempDir w = .ok dirs)
    (hI : env.ImportDir tempDir 0 w = .ok imports)
    (hN : ∀ i ∈ imports, env.IsStandardDependency i = false →
      ∃ d, env.NewDependency i "" "" = .ok d) :
    (AddDependencies env (stagedLibrary dep tempDir version) w).err = none ∧
    (AddDependencies env (stagedLibrary dep tempDir version) w).self.Dependencies.map Except.ok =
      (imports.filter (fun i => !env.IsStandardDependency i)).map
        (fun i => env.NewDependency i "" "") ∧
    ∀ d ∈ (AddDependencies env (stagedLibrary dep tempDir version) w).self.Dependencies,
      ∃ i ∈ imports, env.IsStandardDependency i = false ∧ env.NewDependency i "" "" = .ok d := by
  obtain ⟨ds, h1, h2⟩ := addImports_ok env imports
    (qualifyPaths (stagedLibrary dep tempDir version) dirs) hN
  have hq : (qualifyPaths (stagedLibrary dep tempDir version) dirs).Dependencies = [] := by
    rw [qualifyPaths_eq]; rfl
  have hts : (stagedLibrary dep tempDir version).TempDir = tempDir := rfl
  have hr : AddDependencies env (stagedLibrary dep tempDir version) w =
      { err := none
        self := { qualifyPaths (stagedLibrary dep tempDir version) dirs with Dependencies := ds }
        calls := [Call.LoadGrapnelDepsfile
          [env.pathJoin tempDir "grapnel-lock.toml", env.pathJoin tempDir "grapnel.toml"],
          Call.GetDirectories tempDir, Call.ImportDir tempDir 0] } := by
    have hqt : (qualifyPaths (stagedLibrary dep tempDir version) dirs).TempDir = tempDir := by
      rw [qualifyPaths_eq]; rfl
    simp only [AddDependencies, hts, hT, hL, hD, hqt, hI, if_false, h1, hq, List.nil_append]
  rw [hr]
  refine ⟨rfl, h2, ?_⟩
  intro d hd
  have hmem : Except.ok d ∈ ds.map (Except.ok : Dependency → Except GoError Dependency) :=
    List.mem_map_of_mem _ hd
  rw [h2] at hmem
  obtain ⟨i, hi, hid⟩ := List.mem_map.1 hmem
  rw [List.mem_filter] at hi
  exact ⟨i, hi.1, by simpa using hi.2, hid⟩

/-- C8. A malformed manifest or lockfile is fatal to discovery. For a library
with a non-empty `TempDir`, when the loader returns an error, `AddDependencies`
returns that error, leaves the library as it was, and has called nothing but the
loader. -/
theorem AddDependencies_load_error {W : Type} (env : Env W) (self : Library) (w : W)
    (err : GoError) (hT : self.TempDir ≠ "")
    (hL : env.LoadGrapnelDepsfile
      [env.pathJoin self.TempDir "grapnel-lock.toml", env.pathJoin self.TempDir "grapnel.toml"]
        w = .error err) :
    (AddDependencies env self w).err = some err ∧
    (AddDependencies env self w).self.Provides = self.Provides ∧
    (AddDependencies env self w).self.Dependencies = self.Dependencies ∧
    (AddDependencies env self w).self = self ∧
    (AddDependencies env self w).calls =
      [Call.LoadGrapnelDepsfile
        [env.pathJoin self.TempDir "grapnel-lock.toml",
          env.pathJoin self.TempDir "grapnel.toml"]] := by
  simp [AddDependencies, hT, hL]

/-- C9. An import-scan failure is non-fatal. For a library with a non-empty
`TempDir`, when the loader finds neither manifest nor lockfile, `GetDirectories`
succeeds and `build.ImportDir` fails, `AddDependencies` returns no error and
`Dependencies` is as it was. -/
theorem AddDependencies_scan_error {W : Type} (env : Env W) (self : Library) (w : W)
    (dirs : List String) (err : GoError) (hT : self.TempDir ≠ "")
    (hL : env.LoadGrapnelDepsfile
      [env.pathJoin self.TempDir "grapnel-lock.toml", env.pathJoin self.TempDir "grapnel.toml"]
        w = .ok none)
    (hD : env.GetDirectories self.TempDir w = .ok dirs)
    (hI : env.ImportDir self.TempDir 0 w = .error err) :
    (AddDependencies env self w).err = none ∧
    (AddDependencies env self w).self.Dependencies = self.Dependencies := by
  have hq : (qualifyPaths self dirs).TempDir = self.TempDir := by rw [qualifyPaths_eq]
  simp [AddDependencies, hT, hL, hD, hI, hq, qualifyPaths_eq]

/-! ## `Install` -/

/-- C10. `Install` makes the directory `filepath.Join(installRoot, Import)` with
`os.MkdirAll` first. It returns an error exactly when that fails or, the directory
made, `CopyFileTree` from `TempDir` into it fails. After a failed `MkdirAll`
nothing else is called and the file system is as `MkdirAll` left it; otherwise the
one further call is the copy and the file system is as the copy left it, failed or
not. -/
theorem Install_outcome {W : Type} (env : Env W) (self : Library) (installRoot : String)
    (w : W) :
    ((Install env self installRoot w).err ≠ none ↔
      ((env.MkdirAll (env.filepathJoin installRoot self.Import) 0o755 w).1 ≠ none ∨
        ((env.MkdirAll (env.filepathJoin installRoot self.Import) 0o755 w).1 = none ∧
          (env.CopyFileTree (env.filepathJoin installRoot self.Import) self.TempDir
            (env.MkdirAll (env.filepathJoin installRoot self.Import) 0o755 w).2).1 ≠ none))) ∧
    ((env.MkdirAll (env.filepathJoin installRoot self.Import) 0o755 w).1 ≠ none →
      (Install env self installRoot w).calls =
        [Call.MkdirAll (env.filepathJoin installRoot self.Import) 0o755] ∧
      (Install env self installRoot w).world =
        (env.MkdirAll (env.filepathJoin installRoot self.Import) 0o755 w).2) ∧
    ((env.MkdirAll (env.filepathJoin installRoot self.Import) 0o755 w).1 = none →
      (Install env self installRoot w).calls =
        [Call.MkdirAll (env.filepathJoin installRoot self.Import) 0o755,
          Call.CopyFileTree (env.filepathJoin installRoot self.Import) self.TempDir] ∧
      (Install env self installRoot w).world =
        (env.CopyFileTree (env.filepathJoin installRoot self.Import) self.TempDir
          (env.MkdirAll (env.filepathJoin installRoot self.Import) 0o755 w).2).2) := by
  rcases hm : env.MkdirAll (env.filepathJoin installRoot self.Import) 0o755 w with ⟨e1, w1⟩
  cases e1 with
  | some e => simp [Install, hm]
  | none =>
    rcases hc : env.CopyFileTree (env.filepathJoin installRoot self.Import) self.TempDir w1 with
      ⟨e2, w2⟩
    cases e2 <;> simp [Install, hm, hc]

/-! ## Reading back what `ToToml` writes -/

theorem readChars_append (a b : List Char) (st : ReadState) :
    readChars st (a ++ b) = (readChars st a).bind (fun st1 => readChars st1 b) := by
  induction a generalizing st with
  | nil => simp [readChars]
  | cons c cs ih =>
    simp only [List.cons_append, readChars]
    cases readChar st c with
    | none => simp
    | some st1 => simpa using ih st1

theorem toDigitsCore_plain (fuel n : Nat) (acc : List Char)
    (hacc : ∀ c ∈ acc, c.isDigit = true) :
    ∀ c ∈ Nat.toDigitsCore 10 fuel n acc, c.isDigit = true := by
  induction fuel generalizing n acc with
  | zero => simpa [Nat.toDigitsCore] using hacc
  | succ f ih =>
    have hd : (Nat.digitChar (n % 10)).isDigit = true := by
      have : n % 10 < 10 := Nat.mod_lt _ (by norm_num)
      interval_cases n % 10 <;> decide
    have hacc2 : ∀ c ∈ Nat.digitChar (n % 10) :: acc, c.isDigit = true := by
      intro c hc
      rcases List.mem_cons.1 hc with rfl | hc
      · exact hd
      · exact hacc c hc
    simp only [Nat.toDigitsCore]
    split_ifs
    · exact hacc2
    · exact ih _ _ hacc2

theorem toString_int_plain (n : Int) : ∀ c ∈ (toString n).data, c.isDigit = true ∨ c = '-' := by
  have hnat : ∀ m : Nat, ∀ c ∈ (toString m).data, c.isDigit = true := by
    intro m c hc
    exact toDigitsCore_plain _ _ [] (by simp) c hc
  cases n with
  | ofNat m =>
    intro c hc
    exact Or.inl (hnat m c hc)
  | negSucc m =>
    intro c hc
    have hc2 : c ∈ ("-" ++ toString (m + 1)).data := hc
    rw [String.data_append, List.mem_append] at hc2
    rcases hc2 with h | h
    · right
      simpa using h
    · exact Or.inl (hnat _ c h)

theorem plainText_append (a b : String) :
    plainText (a ++ b) = (plainText a && plainText b) := by
  simp [plainText, String.data_append, List.all_append]

theorem plainText_toString_int (n : Int) : plainText (toString n) = true := by
  simp only [plainText, List.all_eq_true]
  intro c hc
  rcases toString_int_plain n c hc with h | rfl
  · have h1 : c ≠ '"' := by rintro rfl; revert h; decide
    have h2 : c ≠ '\\' := by rintro rfl; revert h; decide
    have h3 : c ≠ '\n' := by rintro rfl; revert h; decide
    simp [h1, h2, h3]
  · decide

theorem plainText_version (version : Version) : plainText version.String = true := by
  have hdot : plainText "." = true := by decide
  simp [Version.String, plainText_append, plainText_toString_int, hdot]

theorem readChars_key_tail (name acc : List Char) (tables : List String)
    (pairs : List (String × String)) (rest : List Char) (hk : keyChars name = true) :
    readChars { mode := .key acc, tables := tables, pairs := pairs } (name ++ ' ' :: rest) =
      readChars { mode := .afterKey (acc ++ name), tables := tables, pairs := pairs } rest := by
  induction name generalizing acc with
  | nil => simp [readChars, readChar, isBlank]
  | cons c cs ih =>
    simp only [keyChars, List.all_cons, Bool.and_eq_true, Bool.not_eq_true', bne_iff_ne,
      ne_eq] at hk
    obtain ⟨⟨⟨⟨⟨h1, h2⟩, h3⟩, h4⟩, h5⟩, hcs⟩ := hk
    have := ih (acc ++ [c]) hcs
    simp only [List.cons_append, readChars, readChar, h1, h2, h3, h5, Bool.false_eq_true,
      if_false, decide_False, Bool.or_self]
    simpa using this

theorem readChars_key (c : Char) (name : List Char) (tables : List String)
    (pairs : List (String × String)) (rest : List Char) (hk : keyChars (c :: name) = true) :
    readChars { mode := .void, tables := tables, pairs := pairs }
        (c :: name ++ ' ' :: '=' :: ' ' :: '"' :: rest) =
      readChars { mode := .str (c :: name) [], tables := tables, pairs := pairs } rest := by
  have hk2 := hk
  simp only [keyChars, List.all_cons, Bool.and_eq_true, Bool.not_eq_true', bne_iff_ne,
    ne_eq] at hk2
  obtain ⟨⟨⟨⟨⟨h1, h2⟩, h3⟩, h4⟩, h5⟩, hcs⟩ := hk2
  have ht := readChars_key_tail name [c] tables pairs ('=' :: ' ' :: '"' :: rest) hcs
  have h5b : (c == '\n') = false := by simpa using h5
  simp only [List.cons_append, readChars, readChar, h1, h2, h3, h4, h5b, Bool.false_eq_true,
    if_false, Bool.or_self]
  rw [List.append_eq, ht]
  simp [readChars, readChar, isBlank]

theorem readChars_value (value acc name : List Char) (tables : List String)
    (pairs : List (String × String)) (rest : List Char)
    (hv : value.all (fun c => c != '"' && c != '\\' && c != '\n') = true) :
    readChars { mode := .str name acc, tables := tables, pairs := pairs }
        (value ++ '"' :: '\n' :: rest) =
      readChars ⟨.void, tables, pairs ++ [(String.mk name, String.mk (acc ++ value))]⟩
        rest := by
  induction value generalizing acc with
  | nil => simp [readChars, readChar, isBlank]
  | cons c cs ih =>
    simp only [List.all_cons, Bool.and_eq_true, bne_iff_ne, ne_eq] at hv
    obtain ⟨⟨⟨h1, h2⟩, h3⟩, hcs⟩ := hv
    have := ih (acc ++ [c]) hcs
    simp only [List.cons_append, readChars, readChar, h1, h2, h3, if_false]
    simpa using this

theorem readChars_keyLine (key value : String) (tables : List String)
    (pairs : List (String × String)) (rest : List Char)
    (hk : key.data ≠ [] ∧ keyChars key.data = true) (hv : plainText value = true) :
    readChars ⟨.void, tables, pairs⟩ ((keyLine key value).data ++ rest) =
      readChars ⟨.void, tables, pairs ++ [(key, value)]⟩ rest := by
  obtain ⟨hne, hkc⟩ := hk
  obtain ⟨c, name, hcn⟩ := List.exists_cons_of_ne_nil hne
  have hd : (keyLine key value).data ++ rest =
      c :: name ++ ' ' :: '=' :: ' ' :: '"' :: (value.data ++ '"' :: '\n' :: rest) := by
    simp [keyLine, String.data_append, hcn]
  rw [hd, readChars_key c name tables pairs _ (hcn ▸ hkc),
    readChars_value value.data [] (c :: name) tables pairs rest hv]
  have hkey : String.mk (c :: name) = key := by rw [← hcn]
  simp [hkey]

theorem readChars_optLine (key value : String) (tables : List String)
    (pairs : List (String × String)) (rest : List Char)
    (hk : key.data ≠ [] ∧ keyChars key.data = true) (hv : plainText value = true) :
    readChars ⟨.void, tables, pairs⟩ (((optLine key value).map String.data).flatten ++ rest) =
      readChars ⟨.void, tables, pairs ++ (if value ≠ "" then [(key, value)] else [])⟩
        rest := by
  unfold optLine
  split_ifs
  · simpa using readChars_keyLine key value tables pairs rest hk hv
  · simp

theorem readChars_urlLines (url : Option URL) (tables : List String)
    (pairs : List (String × String)) (rest : List Char)
    (hv : ∀ u, url = some u → plainText u.String = true) :
    readChars ⟨.void, tables, pairs⟩ (((urlLines url).map String.data).flatten ++ rest) =
      readChars ⟨.void, tables, pairs ++ (url.map (fun u => ("url", u.String))).toList⟩
        rest := by
  cases url with
  | none => simp [urlLines]
  | some u =>
    simpa [urlLines] using
      readChars_keyLine "url" u.String tables pairs rest (by decide) (hv u rfl)

theorem readChars_versionLine (version : Version) (tables : List String)
    (pairs : List (String × String)) (rest : List Char) :
    readChars ⟨.void, tables, pairs⟩ ((versionLine version).data ++ rest) =
      readChars ⟨.void, tables,
        pairs ++ (if version.Major > 0 then [("version", version.String)] else [])⟩ rest := by
  unfold versionLine
  split_ifs
  · exact readChars_keyLine "version" version.String tables pairs rest (by decide)
      (plainText_version version)
  · simp [unversionedLine, readChars, readChar, isBlank]

theorem readChars_ToToml (self : Library) (version : Version)
    (hv : self.Version = some version) (hp : plainFields self.toDependency) :
    ∃ out, ToToml self [] = some out ∧
      readChars ⟨.void, [], []⟩ (writtenText out).data =
        some ⟨.void, ["dependencies"], writtenPairs version self.toDependency⟩ := by
  obtain ⟨h1, h2, h3, h4, h5⟩ := hp
  refine ⟨_, ToToml_eq self version [] hv, ?_⟩
  have hH : ∀ rest, readChars ⟨.void, [], []⟩ (headerLine.data ++ rest) =
      readChars ⟨.void, ["dependencies"], []⟩ rest := by
    intro rest
    simp [headerLine, readChars, readChar, isBlank]
  have hT := fun t p r => readChars_optLine "type" self.Type_ t p r (by decide) h1
  have hI := fun t p r => readChars_optLine "import" self.Import t p r (by decide) h2
  have hU := fun t p r => readChars_urlLines self.Url t p r h3
  have hB := fun t p r => readChars_optLine "branch" self.Branch t p r (by decide) h4
  have hG := fun t p => readChars_optLine "tag" self.Tag t p [] (by decide) h5
  simp only [List.append_nil] at hG
  simp only [writtenText, String.data_join, List.nil_append, List.map_cons, List.flatten_cons,
    fieldLines, List.map_append, List.flatten_append, List.append_assoc]
  rw [hH, readChars_versionLine, hT, hI, hU, hB, hG]
  simp [readChars, writtenPairs]

theorem writtenPairs_read (version : Version) (dep : Dependency) :
    ((writtenPairs version dep).map Prod.fst).Nodup ∧
    ((writtenPairs version dep).lookup "type").getD "" = dep.Type_ ∧
    ((writtenPairs version dep).lookup "import").getD "" = dep.Import ∧
    ((writtenPairs version dep).lookup "url").map URL.mk = dep.Url ∧
    ((writtenPairs version dep).lookup "branch").getD "" = dep.Branch ∧
    ((writtenPairs version dep).lookup "tag").getD "" = dep.Tag := by
  obtain ⟨ty, im, url, br, tg⟩ := dep
  unfold writtenPairs
  by_cases h0 : version.Major > 0 <;> by_cases h1 : ty = "" <;> by_cases h2 : im = "" <;>
    by_cases h4 : br = "" <;> by_cases h5 : tg = "" <;> cases url <;>
    simp [h0, h1, h2, h4, h5, List.lookup, URL.String]

/-- C4, amended. For a library whose type, import, url text, branch and tag
hold no double quote, backslash or newline, reading back the text `ToToml` writes
as a record of the persisted format yields these fields; two such libraries
with the same text have the same fields. -/
theorem ToToml_read_back (self : Library) (version : Version)
    (hv : self.Version = some version) (hp : plainFields self.toDependency) :
    (∃ out, ToToml self [] = some out ∧
      readDependency (writtenText out) = some self.toDependency) ∧
    ∀ (other : Library) (version2 : Version), other.Version = some version2 →
      plainFields other.toDependency →
      (ToToml other []).map writtenText = (ToToml self []).map writtenText →
      other.toDependency = self.toDependency := by
  have key : ∀ (lib : Library) (v : Version), lib.Version = some v →
      plainFields lib.toDependency →
      ∃ out, ToToml lib [] = some out ∧
        readDependency (writtenText out) = some lib.toDependency := by
    intro lib v hlv hlp
    obtain ⟨out, h1, h2⟩ := readChars_ToToml lib v hlv hlp
    have hw := writtenPairs_read v lib.toDependency
    refine ⟨out, h1, ?_⟩
    simp only [readDependency, readPairs, h2, hw.1, true_or, and_self, if_true, Option.map_some']
    congr 1
    rw [hw.2.1, hw.2.2.1, hw.2.2.2.1, hw.2.2.2.2.1, hw.2.2.2.2.2]
  refine ⟨key self version hv hp, ?_⟩
  intro other version2 hov hop heq
  obtain ⟨out1, h1, r1⟩ := key self version hv hp
  obtain ⟨out2, h2, r2⟩ := key other version2 hov hop
  rw [h1, h2] at heq
  simp only [Option.map_some', Option.some.injEq] at heq
  rw [heq, r1] at r2
  exact (Option.some.inj r2).symm

/-! ## Examples -/

/-- C4, as stated, fails: `quotedLibrary` and `splitLibrary` differ in their type
and their import, and `ToToml` writes the same text for both; read back, the text
of `quotedLibrary` yields the fields of `splitLibrary`. -/
theorem ToToml_same_text :
    quotedLibrary.Type_ ≠ splitLibrary.Type_ ∧
    quotedLibrary.Import ≠ splitLibrary.Import ∧
    (ToToml quotedLibrary []).map writtenText = (ToToml splitLibrary []).map writtenText ∧
    (ToToml quotedLibrary []).map writtenText =
      some "\n[[dependencies]]\n# Unversioned\ntype = \"a\"\nimport = \"b\"\n" ∧
    ((ToToml quotedLibrary []).map writtenText).bind readDependency =
      some splitLibrary.toDependency := by
  decide

theorem pinnedLibrary_plain : plainFields pinnedLibrary.toDependency := by
  refine ⟨by decide, by decide, ?_, by decide, by decide⟩
  intro u hu
  cases hu
  decide

/-- C4, amended, at `pinnedLibrary`. -/
theorem ToToml_read_back_witness :
    pinnedLibrary.Version = some ⟨1, 2, 0⟩ ∧ plainFields pinnedLibrary.toDependency ∧
    ∃ out, ToToml pinnedLibrary [] = some out ∧
      readDependency (writtenText out) = some pinnedLibrary.toDependency :=
  ⟨rfl, pinnedLibrary_plain, (ToToml_read_back pinnedLibrary ⟨1, 2, 0⟩ rfl pinnedLibrary_plain).1⟩

/-- C5 at a staged tree whose lockfile declares `gears`. -/
theorem AddDependencies_declared_witness :
    "/tmp/widgets" ≠ "" ∧
    treeEnv.LoadGrapnelDepsfile [treeEnv.pathJoin "/tmp/widgets" "grapnel-lock.toml",
      treeEnv.pathJoin "/tmp/widgets" "grapnel.toml"] lockedTree = .ok (some [gears]) ∧
    (AddDependencies treeEnv (stagedLibrary widgets "/tmp/widgets" none) lockedTree).err = none ∧
    (AddDependencies treeEnv (stagedLibrary widgets "/tmp/widgets" none)
      lockedTree).self.Dependencies = [gears] ∧
    (AddDependencies treeEnv (stagedLibrary widgets "/tmp/widgets" none)
      lockedTree).self.Provides = [] :=
  have h := AddDependencies_declared treeEnv widgets "/tmp/widgets" none lockedTree [gears]
    (by decide) rfl
  ⟨by decide, rfl, h.1, h.2.1, h.2.2.1⟩

/-- C6 at a staged tree without manifest or lockfile and with two
subdirectories. -/
theorem AddDependencies_provides_witness :
    "/tmp/widgets" ≠ "" ∧
    treeEnv.LoadGrapnelDepsfile [treeEnv.pathJoin "/tmp/widgets" "grapnel-lock.toml",
      treeEnv.pathJoin "/tmp/widgets" "grapnel.toml"] bareTree = .ok none ∧
    treeEnv.GetDirectories "/tmp/widgets" bareTree = .ok ["sub", "cmd"] ∧
    (AddDependencies treeEnv (stagedLibrary widgets "/tmp/widgets" none) bareTree).self.Provides =
      ["sub", "cmd"].map (fun d => widgets.Import ++ "/" ++ d) :=
  ⟨by decide, rfl, rfl,
    AddDependencies_provides treeEnv widgets "/tmp/widgets" none bareTree ["sub", "cmd"]
      (by decide) rfl rfl⟩

/-- C7, amended, at a staged tree that imports `fmt`, `acme/gears` and `os`. -/
theorem AddDependencies_inferred_witness :
    "/tmp/widgets" ≠ "" ∧
    treeEnv.ImportDir "/tmp/widgets" 0 bareTree = .ok ["fmt", "acme/gears", "os"] ∧
    (AddDependencies treeEnv (stagedLibrary widgets "/tmp/widgets" none) bareTree).err = none ∧
    (AddDependencies treeEnv (stagedLibrary widgets "/tmp/widgets" none)
        bareTree).self.Dependencies.map Except.ok =
      (["fmt", "acme/gears", "os"].filter (fun i => !treeEnv.IsStandardDependency i)).map
        (fun i => treeEnv.NewDependency i "" "") :=
  have h := AddDependencies_inferred treeEnv widgets "/tmp/widgets" none bareTree ["sub", "cmd"]
    ["fmt", "acme/gears", "os"] (by decide) rfl rfl rfl (fun _ _ _ => ⟨_, rfl⟩)
  ⟨by decide, rfl, h.1, h.2.1⟩

/-- C8 at a staged tree whose lockfile is malformed. -/
theorem AddDependencies_load_error_witness :
    (stagedLibrary widgets "/tmp/widgets" none).TempDir ≠ "" ∧
    (AddDependencies treeEnv (stagedLibrary widgets "/tmp/widgets" none) brokenTree).err =
      some ⟨"bad toml"⟩ ∧
    (AddDependencies treeEnv (stagedLibrary widgets "/tmp/widgets" none) brokenTree).self =
      stagedLibrary widgets "/tmp/widgets" none ∧
    (AddDependencies treeEnv (stagedLibrary widgets "/tmp/widgets" none) brokenTree).calls =
      [Call.LoadGrapnelDepsfile
        ["/tmp/widgets/grapnel-lock.toml", "/tmp/widgets/grapnel.toml"]] :=
  have h := AddDependencies_load_error treeEnv (stagedLibrary widgets "/tmp/widgets" none)
    brokenTree ⟨"bad toml"⟩ (by decide) rfl
  ⟨by decide, h.1, h.2.2.2.1, h.2.2.2.2⟩

/-- C9 at a staged tree that holds no Go package. -/
theorem AddDependencies_scan_error_witness :
    (stagedLibrary widgets "/tmp/widgets" none).TempDir ≠ "" ∧
    treeEnv.ImportDir "/tmp/widgets" 0 noGoTree = .error ⟨"no Go files"⟩ ∧
    (AddDependencies treeEnv (stagedLibrary widgets "/tmp/widgets" none) noGoTree).err = none ∧
    (AddDependencies treeEnv (stagedLibrary widgets "/tmp/widgets" none)
      noGoTree).self.Dependencies = [] :=
  have h := AddDependencies_scan_error treeEnv (stagedLibrary widgets "/tmp/widgets" none)
    noGoTree ["sub"] ⟨"no Go files"⟩ (by decide) rfl rfl rfl
  ⟨by decide, rfl, h.1, h.2⟩

/-! ## `Destroy` -/

theorem diskEnv_removes : RemovesLikeOS diskEnv (fun name d => d.has name) := by
  constructor
  · intro name d h
    show Disk.has (osRemove name d).2 name = false
    have h1 : (osRemove name d).1 = none := h
    unfold osRemove at h1 ⊢
    split_ifs at h1 ⊢ with ha hb
    simp [Disk.has]
  · intro name d h
    have h1 : d.has name = false := h
    show (osRemove name d).1 ≠ none ∧ (osRemove name d).2 = d
    simp [osRemove, h1]

/-- C11, as stated, fails: on a disk that holds the staging directory, a first
`Destroy` returns no error and leaves the directory absent, and a second `Destroy`
right after it returns the error of `os.Remove` on a path that does not exist. -/
theorem Destroy_twice_fails :
    (Destroy diskEnv (stagedLibrary widgets "/tmp/widgets" none) stagedDisk).err = none ∧
    (Destroy diskEnv (stagedLibrary widgets "/tmp/widgets" none) stagedDisk).world.has
      "/tmp/widgets" = false ∧
    (Destroy diskEnv (stagedLibrary widgets "/tmp/widgets" none)
      (Destroy diskEnv (stagedLibrary widgets "/tmp/widgets" none) stagedDisk).world).err =
        some ⟨"remove /tmp/widgets: no such file or directory"⟩ := by
  decide

/-- C11, amended. `Destroy` returns what `os.Remove` on `TempDir` returns. Where
`os.Remove` keeps its documented promises, after a `Destroy` that returns no error
the path `TempDir` no longer exists; a `Destroy` when the path is already absent,
such as a second `Destroy` right after a first that returned no error, returns an
error and changes nothing. -/
theorem Destroy_outcome {W : Type} (env : Env W) (present : String → W → Bool)
    (hR : RemovesLikeOS env present) (self : Library) (w : W) :
    (Destroy env self w).err = (env.Remove self.TempDir w).1 ∧
    ((Destroy env self w).err = none →
      present self.TempDir (Destroy env self w).world = false) ∧
    (present self.TempDir w = false →
      (Destroy env self w).err ≠ none ∧ (Destroy env self w).world = w) ∧
    ((Destroy env self w).err = none →
      (Destroy env self (Destroy env self w).world).err ≠ none ∧
      (Destroy env self (Destroy env self w).world).world = (Destroy env self w).world) := by
  obtain ⟨h1, h2⟩ := hR
  have ha : (Destroy env self w).err = none →
      present self.TempDir (Destroy env self w).world = false :=
    fun h => h1 self.TempDir w h
  have hb : ∀ v, present self.TempDir v = false →
      (Destroy env self v).err ≠ none ∧ (Destroy env self v).world = v :=
    fun v h => h2 self.TempDir v h
  exact ⟨rfl, ha, hb w, fun h => hb _ (ha h)⟩

/-- C11, amended, on a disk that holds the staging directory. -/
theorem Destroy_outcome_witness :
    RemovesLikeOS diskEnv (fun name d => d.has name) ∧
    ((Destroy diskEnv (stagedLibrary widgets "/tmp/widgets" none) stagedDisk).err = none →
      (Destroy diskEnv (stagedLibrary widgets "/tmp/widgets" none) stagedDisk).world.has
        "/tmp/widgets" = false) ∧
    ((Destroy diskEnv (stagedLibrary widgets "/tmp/widgets" none) stagedDisk).err = none →
      (Destroy diskEnv (stagedLibrary widgets "/tmp/widgets" none)
        (Destroy diskEnv (stagedLibrary widgets "/tmp/widgets" none) stagedDisk).world).err ≠
          none ∧
      (Destroy diskEnv (stagedLibrary widgets "/tmp/widgets" none)
        (Destroy diskEnv (stagedLibrary widgets "/tmp/widgets" none) stagedDisk).world).world =
          (Destroy diskEnv (stagedLibrary widgets "/tmp/widgets" none) stagedDisk).world) :=
  have h := Destroy_outcome diskEnv (fun name d => d.has name) diskEnv_removes
    (stagedLibrary widgets "/tmp/widgets" none) stagedDisk
  ⟨diskEnv_removes, h.2.1, h.2.2.2⟩

/-! ## Calling `AddDependencies` again -/

theorem addImports_eq {W : Type} (env : Env W) (imports : List String) (self : Library) :
    addImports env imports self =
      ((importDeps env imports).1,
        { self with Dependencies := self.Dependencies ++ (importDeps env imports).2 }) := by
  induction imports generalizing self with
  | nil => simp [addImports, importDeps]
  | cons i rest ih =>
    unfold addImports importDeps
    split_ifs
    · exact ih self
    · cases env.NewDependency i "" "" with
      | error e => simp
      | ok d => simp [ih]

theorem appends_twice {W : Type} (env : Env W) (w : W) (tempDir importPath : String)
    (provided : List String) (deps : List Dependency)
    (key : ∀ self : Library, self.TempDir = tempDir → self.Import = importPath →
      (AddDependencies env self w).self =
        { self with
          Provides := self.Provides ++ provided, Dependencies := self.Dependencies ++ deps })
    (self : Library) (h1 : self.TempDir = tempDir) (h2 : self.Import = importPath) :
    (AddDependencies env self w).self.Provides = self.Provides ++ provided ∧
    (AddDependencies env self w).self.Dependencies = self.Dependencies ++ deps ∧
    (AddDependencies env (AddDependencies env self w).self w).self.Provides =
      self.Provides ++ provided ++ provided ∧
    (AddDependencies env (AddDependencies env self w).self w).self.Dependencies =
      self.Dependencies ++ deps ++ deps := by
  have k1 := key self h1 h2
  have k2 := key (AddDependencies env self w).self (by rw [k1]; exact h1) (by rw [k1]; exact h2)
  refine ⟨by rw [k1], by rw [k1], ?_, ?_⟩
  · rw [k2, k1]
  · rw [k2, k1]

theorem AddDependencies_delta {W : Type} (env : Env W) (w : W) (tempDir importPath : String) :
    ∃ (provided : List String) (deps : List Dependency),
      ∀ self : Library, self.TempDir = tempDir → self.Import = importPath →
        (AddDependencies env self w).self =
          { self with
            Provides := self.Provides ++ provided
            Dependencies := self.Dependencies ++ deps } := by
  by_cases hT : tempDir = ""
  · refine ⟨[], [], ?_⟩
    intro self h1 h2
    subst h1 h2
    have he : (AddDependencies env self w).self = self := by simp [AddDependencies, hT]
    rw [he]
    simp
  · cases hL : env.LoadGrapnelDepsfile
        [env.pathJoin tempDir "grapnel-lock.toml", env.pathJoin tempDir "grapnel.toml"] w with
    | error e =>
      refine ⟨[], [], ?_⟩
      intro self h1 h2
      subst h1 h2
      simp [AddDependencies, hT, hL]
    | ok found =>
      cases found with
      | some deplist =>
        refine ⟨[], deplist, ?_⟩
        intro self h1 h2
        subst h1 h2
        simp [AddDependencies, hT, hL]
      | none =>
        cases hD : env.GetDirectories tempDir w with
        | error e =>
          refine ⟨[], [], ?_⟩
          intro self h1 h2
          subst h1 h2
          simp [AddDependencies, hT, hL, hD]
        | ok dirs =>
          cases hI : env.ImportDir tempDir 0 w with
          | error e =>
            refine ⟨dirs.map (fun path => importPath ++ "/" ++ path), [], ?_⟩
            intro self h1 h2
            subst h1 h2
            have hq : (qualifyPaths self dirs).TempDir = self.TempDir := by
              rw [qualifyPaths_eq]
            simp [AddDependencies, hT, hL, hD, hq, hI, qualifyPaths_eq]
          | ok imports =>
            refine ⟨dirs.map (fun path => importPath ++ "/" ++ path),
              (importDeps env imports).2, ?_⟩
            intro self h1 h2
            subst h1 h2
            have hq : (qualifyPaths self dirs).TempDir = self.TempDir := by
              rw [qualifyPaths_eq]
            simp [AddDependencies, hT, hL, hD, hq, hI, qualifyPaths_eq, addImports_eq]

/-- C12, as stated, fails: on a staged tree whose lockfile declares `gears`, a
first `AddDependencies` on a fresh library sets `Dependencies` to `[gears]`, and
a further call on the same library and tree makes it `[gears, gears]`. -/
theorem AddDependencies_again_appends :
    (AddDependencies treeEnv (stagedLibrary widgets "/tmp/widgets" none)
      lockedTree).self.Dependencies = [gears] ∧
    (AddDependencies treeEnv
      (AddDependencies treeEnv (stagedLibrary widgets "/tmp/widgets" none) lockedTree).self
      lockedTree).self.Dependencies = [gears, gears] ∧
    (AddDependencies treeEnv
      (AddDependencies treeEnv (stagedLibrary widgets "/tmp/widgets" none) lockedTree).self
      lockedTree).self.Dependencies ≠
        (AddDependencies treeEnv (stagedLibrary widgets "/tmp/widgets" none)
          lockedTree).self.Dependencies ∧
    (AddDependencies treeEnv
      (AddDependencies treeEnv (stagedLibrary widgets "/tmp/widgets" none) lockedTree).self
      lockedTree).err = none := by
  decide

/-! ## The lines of the text `ToToml` writes -/

theorem splitLines_line (line rest : List Char) (h : ∀ c ∈ line, c ≠ '\n') :
    splitLines (line ++ '\n' :: rest) = (line ++ ['\n']) :: splitLines rest := by
  induction line with
  | nil => simp [splitLines]
  | cons c cs ih =>
    have hc : c ≠ '\n' := h c (List.mem_cons_self _ _)
    have hcs : ∀ d ∈ cs, d ≠ '\n' := fun d hd => h d (List.mem_cons_of_mem _ hd)
    simp [splitLines, hc, ih hcs]

theorem textLines_join (writes : List String) (h : ∀ w ∈ writes, endsLine w) :
    textLines (String.join writes) = writes := by
  have key : splitLines ((writes.map String.data).flatten) = writes.map String.data := by
    induction writes with
    | nil => simp [splitLines]
    | cons w ws ih =>
      obtain ⟨line, hw, hline⟩ := h w (List.mem_cons_self _ _)
      have hws : ∀ v ∈ ws, endsLine v := fun v hv => h v (List.mem_cons_of_mem _ hv)
      simp only [List.map_cons, List.flatten_cons, hw, List.append_assoc, List.singleton_append]
      rw [splitLines_line line _ hline, ih hws]
  have hid : (String.mk ∘ String.data) = id := by
    funext s
    rfl
  simp [textLines, String.data_join, key, hid]

theorem endsLine_keyLine (key value : String) (hk : keyChars key.data = true)
    (hv : plainText value = true) : endsLine (keyLine key value) := by
  refine ⟨key.data ++ (' ' :: '=' :: ' ' :: '"' :: (value.data ++ ['"'])), ?_, ?_⟩
  · simp [keyLine, String.data_append]
  · intro c hc
    simp only [keyChars, List.all_eq_true, Bool.and_eq_true, bne_iff_ne, ne_eq] at hk
    simp only [plainText, List.all_eq_true, Bool.and_eq_true, bne_iff_ne, ne_eq] at hv
    simp only [List.mem_append, List.mem_cons, List.mem_singleton] at hc
    rcases hc with hc | rfl | rfl | rfl | rfl | hc | hc
    · exact (hk c hc).2
    · decide
    · decide
    · decide
    · decide
    · exact (hv c hc).2
    · rcases hc with rfl | hc
      · decide
      · simp at hc

theorem endsLine_versionLine (version : Version) : endsLine (versionLine version) := by
  unfold versionLine
  split_ifs
  · exact endsLine_keyLine "version" version.String (by decide) (plainText_version version)
  · exact ⟨"# Unversioned".data, rfl, by decide⟩

theorem endsLine_fieldLines (dep : Dependency) (hp : plainFields dep) :
    ∀ line ∈ fieldLines dep, endsLine line := by
  obtain ⟨h1, h2, h3, h4, h5⟩ := hp
  intro line hl
  rcases (mem_fieldLines dep line).1 hl with ⟨_, rfl⟩ | ⟨_, rfl⟩ | ⟨u, hu, rfl⟩ | ⟨_, rfl⟩ |
    ⟨_, rfl⟩
  · exact endsLine_keyLine "type" _ (by decide) h1
  · exact endsLine_keyLine "import" _ (by decide) h2
  · exact endsLine_keyLine "url" _ (by decide) (h3 u hu)
  · exact endsLine_keyLine "branch" _ (by decide) h4
  · exact endsLine_keyLine "tag" _ (by decide) h5

theorem ToToml_textLines (self : Library) (version : Version)
    (hv : self.Version = some version) (hp : plainFields self.toDependency) :
    ∃ out, ToToml self [] = some out ∧
      textLines (writtenText out) =
        "\n" :: "[[dependencies]]\n" :: versionLine version :: fieldLines self.toDependency := by
  refine ⟨_, ToToml_eq self version [] hv, ?_⟩
  have hjoin : writtenText ([] ++ headerLine :: versionLine version ::
      fieldLines self.toDependency) =
      String.join ("\n" :: "[[dependencies]]\n" :: versionLine version ::
        fieldLines self.toDependency) := by
    apply String.ext
    simp [writtenText, String.data_join, headerLine]
  rw [hjoin]
  apply textLines_join
  intro w hw
  simp only [List.mem_cons] at hw
  rcases hw with rfl | rfl | rfl | hw
  · exact ⟨[], rfl, by simp⟩
  · exact ⟨"[[dependencies]]".data, rfl, by decide⟩
  · exact endsLine_versionLine version
  · exact endsLine_fieldLines _ hp w hw

theorem readPairs_ToToml (self : Library) (version : Version)
    (hv : self.Version = some version) (hp : plainFields self.toDependency) :
    ∃ out, ToToml self [] = some out ∧
      readPairs (writtenText out) = some (writtenPairs version self.toDependency) := by
  obtain ⟨out, h1, h2⟩ := readChars_ToToml self version hv hp
  refine ⟨out, h1, ?_⟩
  simp [readPairs, h2, (writtenPairs_read version self.toDependency).1]

theorem writtenPairs_lookup (version : Version) (dep : Dependency) :
    ((writtenPairs version dep).map Prod.fst).Sublist
      ["version", "type", "import", "url", "branch", "tag"] ∧
    (writtenPairs version dep).lookup "version" =
      (if version.Major > 0 then some version.String else none) ∧
    (writtenPairs version dep).lookup "type" =
      (if dep.Type_ ≠ "" then some dep.Type_ else none) ∧
    (writtenPairs version dep).lookup "import" =
      (if dep.Import ≠ "" then some dep.Import else none) ∧
    (writtenPairs version dep).lookup "url" = dep.Url.map URL.String ∧
    (writtenPairs version dep).lookup "branch" =
      (if dep.Branch ≠ "" then some dep.Branch else none) ∧
    (writtenPairs version dep).lookup "tag" =
      (if dep.Tag ≠ "" then some dep.Tag else none) := by
  obtain ⟨ty, im, url, br, tg⟩ := dep
  unfold writtenPairs
  by_cases h0 : version.Major > 0 <;> by_cases h1 : ty = "" <;> by_cases h2 : im = "" <;>
    by_cases h4 : br = "" <;> by_cases h5 : tg = "" <;> cases url <;>
    simp [h0, h1, h2, h4, h5, List.lookup, URL.String] <;> decide

/-- C1, as stated, fails: the tag of `repeatedTypeLibrary` holds a double quote and
a newline, and the text `ToToml` writes has, after the header, the lines
placeholder, `type`, `tag`, `type`: the key `type` occurs twice and `tag` precedes
it. -/
theorem ToToml_text_order_fails :
    (ToToml repeatedTypeLibrary []).map (fun out => textLines (writtenText out)) =
      some ["\n", "[[dependencies]]\n", "# Unversioned\n", "type = \"git\"\n", "tag = \"t\"\n",
        "type = \"z\"\n"] ∧
    ["# Unversioned\n", "type = \"git\"\n", "tag = \"t\"\n", "type = \"z\"\n"].map lineRank =
      [0, 1, 5, 1] := by
  decide

/-- C1, amended. For a library with a set `Version` whose type, import path, url
text, branch and tag hold no double quote, backslash or newline, the text `ToToml`
writes is an empty line, the header line `[[dependencies]]`, and then lines in the
fixed order version (or its comment placeholder), type, import, url, branch, tag:
the first is the version line or the placeholder, the places of the lines in that
order are strictly increasing, and every line is one of the six; read back as a
record, the text has its keys in that order, none twice. -/
theorem ToToml_text_order (self : Library) (version : Version)
    (hv : self.Version = some version) (hp : plainFields self.toDependency) :
    ∃ out rest pairs, ToToml self [] = some out ∧
      textLines (writtenText out) = "\n" :: "[[dependencies]]\n" :: rest ∧
      (rest.head?.map lineRank = some 0) ∧
      (rest.map lineRank).Pairwise (· < ·) ∧
      (∀ line ∈ rest, lineRank line ≤ 5) ∧
      readPairs (writtenText out) = some pairs ∧
      (pairs.map Prod.fst).Sublist ["version", "type", "import", "url", "branch", "tag"] := by
  obtain ⟨out, h1, h2⟩ := ToToml_textLines self version hv hp
  obtain ⟨out2, h3, h4⟩ := readPairs_ToToml self version hv hp
  obtain ⟨rest, h5, h6, h7, h8⟩ := ToToml_record_order self version [] hv
  have e1 : out2 = out := Option.some.inj (h3.symm.trans h1)
  have e2 : rest = versionLine version :: fieldLines self.toDependency := by
    rw [ToToml_eq self version [] hv] at h5
    simpa using h5.symm
  subst e1 e2
  exact ⟨out2, _, _, h1, h2, h6, h7, h8, h4, (writtenPairs_lookup version _).1⟩

theorem unstableLibrary_plain : plainFields unstableLibrary.toDependency := by
  refine ⟨by decide, by decide, ?_, by decide, by decide⟩
  intro u hu
  cases hu

/-- C1, amended, at `pinnedLibrary`. -/
theorem ToToml_text_order_witness :
    pinnedLibrary.Version = some ⟨1, 2, 0⟩ ∧ plainFields pinnedLibrary.toDependency ∧
    ∃ out rest pairs, ToToml pinnedLibrary [] = some out ∧
      textLines (writtenText out) = "\n" :: "[[dependencies]]\n" :: rest ∧
      (rest.head?.map lineRank = some 0) ∧
      (rest.map lineRank).Pairwise (· < ·) ∧
      (∀ line ∈ rest, lineRank line ≤ 5) ∧
      readPairs (writtenText out) = some pairs ∧
      (pairs.map Prod.fst).Sublist ["version", "type", "import", "url", "branch", "tag"] :=
  ⟨rfl, pinnedLibrary_plain, ToToml_text_order pinnedLibrary ⟨1, 2, 0⟩ rfl pinnedLibrary_plain⟩

/-- C2, as stated, fails. At version 0.3.0 the type of `forgedPinLibrary` holds a
double quote and a newline, and the text `ToToml` writes has a `version` line,
which reads back as a version key. At version 1.2.0 the tag of
`forgedPlaceholderLibrary` does the same for the comment placeholder. -/
theorem ToToml_text_pin_fails :
    (ToToml forgedPinLibrary []).map (fun out => textLines (writtenText out)) =
      some ["\n", "[[dependencies]]\n", "# Unversioned\n", "type = \"git\"\n",
        "version = \"6.6.6\"\n"] ∧
    hasKey "version" "version = \"6.6.6\"\n" = true ∧
    ((ToToml forgedPinLibrary []).map writtenText).bind readPairs =
      some [("type", "git"), ("version", "6.6.6")] ∧
    (ToToml forgedPlaceholderLibrary []).map (fun out => textLines (writtenText out)) =
      some ["\n", "[[dependencies]]\n", "version = \"1.2.0\"\n", "tag = \"v\"\n",
        "# Unversioned\n", "branch = \"b\"\n"] := by
  decide

/-- C2, amended. For a library with a set `Version` whose type, import path, url
text, branch and tag hold no double quote, backslash or newline: with `Major = 0`
the line of the text directly after the header is the comment `# Unversioned`, no
line of the text is a `version` line and the text read back has no `version` key;
with `Major ≥ 1` the line after the header is `version = "<Major>.<Minor>.<Patch>"`,
no line of the text is the comment placeholder and the text read back has that
version. -/
theorem ToToml_text_pin_policy (self : Library) (version : Version)
    (hv : self.Version = some version) (hp : plainFields self.toDependency) :
    ∃ out rest pairs, ToToml self [] = some out ∧
      readPairs (writtenText out) = some pairs ∧
      (version.Major = 0 →
        textLines (writtenText out) =
          "\n" :: "[[dependencies]]\n" :: unversionedLine :: rest ∧
        (∀ line ∈ textLines (writtenText out), hasKey "version" line = false) ∧
        pairs.lookup "version" = none) ∧
      (1 ≤ version.Major →
        textLines (writtenText out) =
          "\n" :: "[[dependencies]]\n" ::
            keyLine "version" (toString version.Major ++ "." ++ toString version.Minor ++
              "." ++ toString version.Patch) :: rest ∧
        (∀ line ∈ textLines (writtenText out), line ≠ unversionedLine) ∧
        pairs.lookup "version" =
          some (toString version.Major ++ "." ++ toString version.Minor ++ "." ++
            toString version.Patch)) := by
  obtain ⟨out, h1, h2⟩ := ToToml_textLines self version hv hp
  obtain ⟨out2, h3, h4⟩ := readPairs_ToToml self version hv hp
  have e1 : out2 = out := Option.some.inj (h3.symm.trans h1)
  subst e1
  have hl := (writtenPairs_lookup version self.toDependency).2.1
  have hf : ∀ line ∈ fieldLines self.toDependency,
      hasKey "version" line = false ∧ line ≠ unversionedLine :=
    fun line h => (lineRank_pos_iff line).1 (lineRank_fields_pos _ line h)
  refine ⟨out2, fieldLines self.toDependency, _, h1, h4, ?_, ?_⟩
  · intro h0
    have hvl : versionLine version = unversionedLine := by
      rw [versionLine, if_neg (by omega)]
    rw [h2, hvl]
    refine ⟨rfl, ?_, ?_⟩
    · intro line hmem
      simp only [List.mem_cons] at hmem
      rcases hmem with rfl | rfl | rfl | hmem
      · decide
      · decide
      · decide
      · exact (hf line hmem).1
    · rw [hl, if_neg (by omega)]
  · intro h0
    have hvl : versionLine version = keyLine "version" (toString version.Major ++ "." ++
        toString version.Minor ++ "." ++ toString version.Patch) := by
      rw [versionLine, if_pos (by omega)]
      rfl
    rw [h2, hvl]
    refine ⟨rfl, ?_, ?_⟩
    · intro line hmem
      simp only [List.mem_cons] at hmem
      rcases hmem with rfl | rfl | rfl | hmem
      · decide
      · decide
      · simp [keyLine, unversionedLine, String.ext_iff, String.data_append]
      · exact (hf line hmem).2
    · rw [hl, if_pos (by omega)]
      rfl

/-- C2, amended, at the versions 0.3.0 and 1.2.0: the placeholder, and
`version = "1.2.0"`. -/
theorem ToToml_text_pin_policy_witness :
    (unstableLibrary.Version = some ⟨0, 3, 0⟩ ∧ plainFields unstableLibrary.toDependency ∧
      ∃ out rest pairs, ToToml unstableLibrary [] = some out ∧
        readPairs (writtenText out) = some pairs ∧
        textLines (writtenText out) =
          "\n" :: "[[dependencies]]\n" :: "# Unversioned\n" :: rest ∧
        (∀ line ∈ textLines (writtenText out), hasKey "version" line = false) ∧
        pairs.lookup "version" = none) ∧
    (pinnedLibrary.Version = some ⟨1, 2, 0⟩ ∧ plainFields pinnedLibrary.toDependency ∧
      ∃ out rest pairs, ToToml pinnedLibrary [] = some out ∧
        readPairs (writtenText out) = some pairs ∧
        textLines (writtenText out) =
          "\n" :: "[[dependencies]]\n" :: "version = \"1.2.0\"\n" :: rest ∧
        (∀ line ∈ textLines (writtenText out), line ≠ unversionedLine) ∧
        pairs.lookup "version" = some "1.2.0") := by
  refine ⟨⟨rfl, unstableLibrary_plain, ?_⟩, ⟨rfl, pinnedLibrary_plain, ?_⟩⟩
  · obtain ⟨out, rest, pairs, h1, h2, h3, _⟩ :=
      ToToml_text_pin_policy unstableLibrary ⟨0, 3, 0⟩ rfl unstableLibrary_plain
    exact ⟨out, rest, pairs, h1, h2, h3 rfl⟩
  · obtain ⟨out, rest, pairs, h1, h2, _, h4⟩ :=
      ToToml_text_pin_policy pinnedLibrary ⟨1, 2, 0⟩ rfl pinnedLibrary_plain
    exact ⟨out, rest, pairs, h1, h2, h4 (by decide)⟩

/-- C3, as stated, fails, in two ways. A `Url` that is set and renders as the empty
string makes `ToToml` write the line `url = ""`. The type of `forgedTypeLibrary` is
empty and its import path holds a double quote and a newline: the text has a
`type` line, and reads back with the type `y`. -/
theorem ToToml_text_omission_fails :
    (∃ u, emptyUrlLibrary.Url = some u ∧ u.String = "") ∧
    (ToToml emptyUrlLibrary []).map (fun out => textLines (writtenText out)) =
      some ["\n", "[[dependencies]]\n", "# Unversioned\n", "url = \"\"\n"] ∧
    hasKey "url" "url = \"\"\n" = true ∧
    forgedTypeLibrary.Type_ = "" ∧
    (ToToml forgedTypeLibrary []).map (fun out => textLines (writtenText out)) =
      some ["\n", "[[dependencies]]\n", "# Unversioned\n", "import = \"x\"\n",
        "type = \"y\"\n"] ∧
    hasKey "type" "type = \"y\"\n" = true ∧
    ((ToToml forgedTypeLibrary []).map writtenText).bind readDependency =
      some { Type_ := "y", Import := "x", Url := none, Branch := "", Tag := "" } := by
  refine ⟨⟨⟨""⟩, rfl, rfl⟩, ?_, ?_, ?_, ?_, ?_, ?_⟩ <;> decide

/-- C3, amended. For a library with a set `Version` whose type, import path, url
text, branch and tag hold no double quote, backslash or newline: for each of the
string fields type, import path, branch and tag, the text `ToToml` writes has a
line for the key if and only if the field is non-empty, that line is
`key = "<value>"`, and the text read back has the key exactly then, with that
value; the text has a `url` line if and only if `Url` is non-nil, and that line is
`url = "<Url.String()>"`, whatever the URL renders. -/
theorem ToToml_text_omission (self : Library) (version : Version)
    (hv : self.Version = some version) (hp : plainFields self.toDependency) :
    ∃ out lines pairs, ToToml self [] = some out ∧
      textLines (writtenText out) = lines ∧
      readPairs (writtenText out) = some pairs ∧
      ((∃ line ∈ lines, hasKey "type" line = true) ↔ self.Type_ ≠ "") ∧
      ((∃ line ∈ lines, hasKey "import" line = true) ↔ self.Import ≠ "") ∧
      ((∃ line ∈ lines, hasKey "url" line = true) ↔ self.Url ≠ none) ∧
      ((∃ line ∈ lines, hasKey "branch" line = true) ↔ self.Branch ≠ "") ∧
      ((∃ line ∈ lines, hasKey "tag" line = true) ↔ self.Tag ≠ "") ∧
      (∀ line ∈ lines, hasKey "type" line = true → line = keyLine "type" self.Type_) ∧
      (∀ line ∈ lines, hasKey "import" line = true → line = keyLine "import" self.Import) ∧
      (∀ line ∈ lines, hasKey "url" line = true →
        ∃ u, self.Url = some u ∧ line = keyLine "url" u.String) ∧
      (∀ line ∈ lines, hasKey "branch" line = true → line = keyLine "branch" self.Branch) ∧
      (∀ line ∈ lines, hasKey "tag" line = true → line = keyLine "tag" self.Tag) ∧
      pairs.lookup "type" = (if self.Type_ ≠ "" then some self.Type_ else none) ∧
      pairs.lookup "import" = (if self.Import ≠ "" then some self.Import else none) ∧
      pairs.lookup "url" = self.Url.map URL.String ∧
      pairs.lookup "branch" = (if self.Branch ≠ "" then some self.Branch else none) ∧
      pairs.lookup "tag" = (if self.Tag ≠ "" then some self.Tag else none) := by
  obtain ⟨out, h1, h2⟩ := ToToml_textLines self version hv hp
  obtain ⟨out2, h3, h4⟩ := readPairs_ToToml self version hv hp
  have e1 : out2 = out := Option.some.inj (h3.symm.trans h1)
  subst e1
  have hl := writtenPairs_lookup version self.toDependency
  have hpre : ∀ line ∈ ["\n", "[[dependencies]]\n"],
      hasKey "type" line = false ∧ hasKey "import" line = false ∧
      hasKey "url" line = false ∧ hasKey "branch" line = false ∧ hasKey "tag" line = false := by
    decide
  have ho := omission_of_lines self.toDependency version ["\n", "[[dependencies]]\n"] hpre
  exact ⟨out2, _, _, h1, h2, h4, ho.1, ho.2.1, ho.2.2.1, ho.2.2.2.1, ho.2.2.2.2.1,
    ho.2.2.2.2.2.1, ho.2.2.2.2.2.2.1, ho.2.2.2.2.2.2.2.1, ho.2.2.2.2.2.2.2.2.1,
    ho.2.2.2.2.2.2.2.2.2, hl.2.2.1, hl.2.2.2.1, hl.2.2.2.2.1, hl.2.2.2.2.2.1, hl.2.2.2.2.2.2⟩

/-- C3, amended, at `pinnedLibrary`: its branch is empty, its other fields are
not. -/
theorem ToToml_text_omission_witness :
    pinnedLibrary.Version = some ⟨1, 2, 0⟩ ∧ plainFields pinnedLibrary.toDependency ∧
    ∃ out lines pairs, ToToml pinnedLibrary [] = some out ∧
      textLines (writtenText out) = lines ∧
      readPairs (writtenText out) = some pairs ∧
      ((∃ line ∈ lines, hasKey "type" line = true) ↔ pinnedLibrary.Type_ ≠ "") ∧
      ((∃ line ∈ lines, hasKey "branch" line = true) ↔ pinnedLibrary.Branch ≠ "") ∧
      pairs.lookup "branch" = none ∧
      pairs.lookup "tag" = some "v1.2.0" := by
  obtain ⟨out, lines, pairs, h1, h2, h3, h4, _, _, h7, _, _, _, _, _, _, _, _, _, h18, h19⟩ :=
    ToToml_text_omission pinnedLibrary ⟨1, 2, 0⟩ rfl pinnedLibrary_plain
  exact ⟨rfl, pinnedLibrary_plain, out, lines, pairs, h1, h2, h3, h4, h7, h18, h19⟩

/-! ## What a call of `AddDependencies` appends -/

theorem importDeps_ok {W : Type} (env : Env W) (imports : List String)
    (hN : ∀ i ∈ imports, env.IsStandardDependency i = false →
      ∃ d, env.NewDependency i "" "" = .ok d) :
    (importDeps env imports).1 = none ∧
    (importDeps env imports).2.map Except.ok =
      (imports.filter (fun i => !env.IsStandardDependency i)).map
        (fun i => env.NewDependency i "" "") := by
  induction imports with
  | nil => simp [importDeps]
  | cons i rest ih =>
    have hrest := ih (fun j hj => hN j (List.mem_cons_of_mem _ hj))
    by_cases hs : env.IsStandardDependency i = true
    · simpa [importDeps, hs] using hrest
    · simp only [Bool.not_eq_true] at hs
      obtain ⟨d, hd⟩ := hN i (List.mem_cons_self _ _) hs
      simp [importDeps, hs, hd, hrest.1, hrest.2]

theorem AddDependencies_declared_eq {W : Type} (env : Env W) (w : W) (tempDir : String)
    (deplist : List Dependency) (hT : tempDir ≠ "")
    (hL : env.LoadGrapnelDepsfile
      [env.pathJoin tempDir "grapnel-lock.toml", env.pathJoin tempDir "grapnel.toml"] w =
        .ok (some deplist))
    (self : Library) (h1 : self.TempDir = tempDir) :
    (AddDependencies env self w).self =
      { self with
        Provides := self.Provides ++ [], Dependencies := self.Dependencies ++ deplist } := by
  subst h1
  simp [AddDependencies, hT, hL]

theorem AddDependencies_inferred_eq {W : Type} (env : Env W) (w : W)
    (tempDir importPath : String) (dirs : List String) (hT : tempDir ≠ "")
    (hL : env.LoadGrapnelDepsfile
      [env.pathJoin tempDir "grapnel-lock.toml", env.pathJoin tempDir "grapnel.toml"] w =
        .ok none)
    (hD : env.GetDirectories tempDir w = .ok dirs)
    (self : Library) (h1 : self.TempDir = tempDir) (h2 : self.Import = importPath) :
    (AddDependencies env self w).self =
      { self with
        Provides := self.Provides ++ dirs.map (fun d => importPath ++ "/" ++ d)
        Dependencies := self.Dependencies ++
          (match env.ImportDir tempDir 0 w with
            | .error _ => []
            | .ok imports => (importDeps env imports).2) } := by
  subst h1 h2
  have hq : (qualifyPaths self dirs).TempDir = self.TempDir := by rw [qualifyPaths_eq]
  cases hI : env.ImportDir self.TempDir 0 w with
  | error e => simp [AddDependencies, hT, hL, hD, hq, hI, qualifyPaths_eq]
  | ok imports => simp [AddDependencies, hT, hL, hD, hq, hI, qualifyPaths_eq, addImports_eq]

/-- C12, amended. `NewLibrary` returns a library whose `Provides` and
`Dependencies` are empty; `AddDependencies` on a library with an empty `TempDir`
returns no error and leaves the library as it is; on a staged tree each call
appends what discovery yields, so a further call on the same library and tree
appends it a second time: with a declared list, that list to `Dependencies` and
nothing to `Provides`; with neither manifest nor lockfile and the subdirectories
`dirs`, `Import/d` for each `d` of `dirs` to `Provides` and, when the scan returns
`imports` and `NewDependency` succeeds, `NewDependency(i, "", "")` for the imports
`i` that are not standard to `Dependencies`. -/
theorem AddDependencies_appends {W : Type} (env : Env W) (w : W) (self : Library) :
    (∀ dep, (NewLibrary dep).Provides = [] ∧ (NewLibrary dep).Dependencies = []) ∧
    (self.TempDir = "" →
      (AddDependencies env self w).err = none ∧ (AddDependencies env self w).self = self) ∧
    (self.TempDir ≠ "" → ∀ deplist,
      env.LoadGrapnelDepsfile [env.pathJoin self.TempDir "grapnel-lock.toml",
        env.pathJoin self.TempDir "grapnel.toml"] w = .ok (some deplist) →
      (AddDependencies env self w).self.Provides = self.Provides ∧
      (AddDependencies env self w).self.Dependencies = self.Dependencies ++ deplist ∧
      (AddDependencies env (AddDependencies env self w).self w).self.Provides =
        self.Provides ∧
      (AddDependencies env (AddDependencies env self w).self w).self.Dependencies =
        self.Dependencies ++ deplist ++ deplist) ∧
    (self.TempDir ≠ "" → ∀ dirs,
      env.LoadGrapnelDepsfile [env.pathJoin self.TempDir "grapnel-lock.toml",
        env.pathJoin self.TempDir "grapnel.toml"] w = .ok none →
      env.GetDirectories self.TempDir w = .ok dirs →
      (AddDependencies env self w).self.Provides =
        self.Provides ++ dirs.map (fun d => self.Import ++ "/" ++ d) ∧
      (AddDependencies env (AddDependencies env self w).self w).self.Provides =
        self.Provides ++ dirs.map (fun d => self.Import ++ "/" ++ d) ++
          dirs.map (fun d => self.Import ++ "/" ++ d) ∧
      ∀ imports, env.ImportDir self.TempDir 0 w = .ok imports →
        (∀ i ∈ imports, env.IsStandardDependency i = false →
          ∃ d, env.NewDependency i "" "" = .ok d) →
        ∃ deps, deps.map Except.ok =
            (imports.filter (fun i => !env.IsStandardDependency i)).map
              (fun i => env.NewDependency i "" "") ∧
          (AddDependencies env self w).self.Dependencies = self.Dependencies ++ deps ∧
          (AddDependencies env (AddDependencies env self w).self w).self.Dependencies =
            self.Dependencies ++ deps ++ deps) := by
  refine ⟨fun dep => ⟨rfl, rfl⟩, ?_, ?_, ?_⟩
  · intro h
    simp [AddDependencies, h]
  · intro hT deplist hL
    have h := appends_twice env w self.TempDir self.Import [] deplist
      (fun lib h1 _ => AddDependencies_declared_eq env w self.TempDir deplist hT hL lib h1)
      self rfl rfl
    simpa using h
  · intro hT dirs hL hD
    have h := appends_twice env w self.TempDir self.Import
      (dirs.map (fun d => self.Import ++ "/" ++ d))
      (match env.ImportDir self.TempDir 0 w with
        | .error _ => []
        | .ok imports => (importDeps env imports).2)
      (fun lib h1 h2 =>
        AddDependencies_inferred_eq env w self.TempDir self.Import dirs hT hL hD lib h1 h2)
      self rfl rfl
    refine ⟨h.1, h.2.2.1, ?_⟩
    intro imports hI hN
    rw [hI] at h
    exact ⟨(importDeps env imports).2, (importDeps_ok env imports hN).2, h.2.1, h.2.2.2⟩

/-- C12, amended, on a staged tree whose lockfile declares `gears` and on one
without manifest or lockfile, with two subdirectories and the imports `fmt`,
`acme/gears` and `os`. -/
theorem AddDependencies_appends_witness :
    ((AddDependencies treeEnv (stagedLibrary widgets "/tmp/widgets" none)
        lockedTree).self.Dependencies = [] ++ [gears] ∧
      (AddDependencies treeEnv
        (AddDependencies treeEnv (stagedLibrary widgets "/tmp/widgets" none) lockedTree).self
        lockedTree).self.Dependencies = [] ++ [gears] ++ [gears]) ∧
    ((AddDependencies treeEnv (stagedLibrary widgets "/tmp/widgets" none)
        bareTree).self.Provides =
          [] ++ ["sub", "cmd"].map (fun d => "acme/widgets" ++ "/" ++ d) ∧
      (AddDependencies treeEnv
        (AddDependencies treeEnv (stagedLibrary widgets "/tmp/widgets" none) bareTree).self
        bareTree).self.Provides =
          [] ++ ["sub", "cmd"].map (fun d => "acme/widgets" ++ "/" ++ d) ++
            ["sub", "cmd"].map (fun d => "acme/widgets" ++ "/" ++ d)) :=
  have h := AddDependencies_appends treeEnv lockedTree
    (stagedLibrary widgets "/tmp/widgets" none)
  have h1 := h.2.2.1 (by decide) [gears] rfl
  have k := AddDependencies_appends treeEnv bareTree
    (stagedLibrary widgets "/tmp/widgets" none)
  have k1 := k.2.2.2 (by decide) ["sub", "cmd"] rfl rfl
  ⟨⟨h1.2.1, h1.2.2.2⟩, ⟨k1.1, k1.2.1⟩⟩

/-- C7, as stated, fails: on `noDirsTree` there is neither manifest nor lockfile,
the import scan would return `acme/gears`, which is not standard and for which
`NewDependency` succeeds, but the subdirectories cannot be listed:
`AddDependencies` returns that error before the scan and `Dependencies` stays
empty. -/
theorem AddDependencies_inferred_fails :
    treeEnv.LoadGrapnelDepsfile [treeEnv.pathJoin "/tmp/widgets" "grapnel-lock.toml",
      treeEnv.pathJoin "/tmp/widgets" "grapnel.toml"] noDirsTree = .ok none ∧
    treeEnv.ImportDir "/tmp/widgets" 0 noDirsTree = .ok ["acme/gears"] ∧
    treeEnv.IsStandardDependency "acme/gears" = false ∧
    treeEnv.NewDependency "acme/gears" "" "" = .ok gears ∧
    (AddDependencies treeEnv (stagedLibrary widgets "/tmp/widgets" none) noDirsTree).err =
      some ⟨"no dirs"⟩ ∧
    (AddDependencies treeEnv (stagedLibrary widgets "/tmp/widgets" none)
      noDirsTree).self.Dependencies = [] ∧
    (AddDependencies treeEnv (stagedLibrary widgets "/tmp/widgets" none)
      noDirsTree).self.Dependencies ≠ [gears] ∧
    (AddDependencies treeEnv (stagedLibrary widgets "/tmp/widgets" none) noDirsTree).calls =
      [Call.LoadGrapnelDepsfile
        ["/tmp/widgets/grapnel-lock.toml", "/tmp/widgets/grapnel.toml"],
        Call.GetDirectories "/tmp/widgets"] := by
  refine ⟨rfl, rfl, rfl, rfl, ?_, ?_, ?_, ?_⟩ <;> decide
